import Mathlib

/-!
# Verification of the Conch chatbot (`web_futurepunk`)

Shallow embedding of the response normalizer (`clean_response` in
`src/web_app/app.py`), the multi-backend LLM client
(`src/web_app/llm_client.py`), the persona (`src/conch_character.py`)
and the HTTP chat/welcome handlers (`src/web_app/app.py`), together
with proofs of the specified properties.

Strings are modelled as `List Char`.  Whitespace is modelled as the six
ASCII whitespace characters recognised by both Python `str.split()`
and the regex class `\s` (space, tab, newline, carriage return,
vertical tab, form feed); Unicode-only whitespace is outside the scope
of the model.  External effects (vendor SDK calls, HTTP transport,
randomness, uuid generation, clocks) are passed in as explicit
parameters, and side effects that the claims mention (whether the
generation backend or the speech synthesizer was invoked) are recorded
in the returned result records.
-/

namespace Conch

/-- The six ASCII whitespace characters of Python `str.split()` / regex `\s`. -/
def isWS (c : Char) : Bool :=
  c = ' ' || c = '\t' || c = '\n' || c = '\r' || c = Char.ofNat 11 || c = Char.ofNat 12

/-- Sentence-ending punctuation of `clean_response`: the class `[.!?]`. -/
def isPunct (c : Char) : Bool :=
  c = '.' || c = '!' || c = '?'

/-- Python `str.lower()` restricted to ASCII (`Char.toLower` maps `A`-`Z`). -/
def pyLower (s : List Char) : List Char :=
  s.map Char.toLower

/-- Python `str.strip()`: drop leading and trailing whitespace. -/
def stripWS (s : List Char) : List Char :=
  (((s.dropWhile isWS).reverse).dropWhile isWS).reverse

/-!
## `re.sub(r'\*[^*]+\*', '', response)`

Left-to-right removal of every leftmost match of a `*`, one or more
non-`*` characters, and a closing `*`.  Modelled as a scan with a
buffer: `none` means no star is pending; `some buf` means a `*` has
been read and `buf` holds the non-star characters read since.  When a
second `*` arrives with a nonempty buffer the whole bracketed group is
dropped; with an empty buffer (`**`) the first star can never match
and is emitted.  A star left pending at the end of the input is
emitted together with its buffer.
-/
def subStarsCore : Option (List Char) → List Char → List Char
  | none, [] => []
  | some buf, [] => '*' :: buf
  | none, c :: rest =>
    if c = '*' then subStarsCore (some []) rest
    else c :: subStarsCore none rest
  | some buf, c :: rest =>
    if c = '*' then
      if buf.isEmpty then '*' :: subStarsCore (some []) rest
      else subStarsCore none rest
    else subStarsCore (some (buf ++ [c])) rest

/-- The first rewrite step of `clean_response`. -/
def subStars (s : List Char) : List Char :=
  subStarsCore none s

/-- `response.replace('*', '')`: drop every remaining asterisk. -/
def removeStars (s : List Char) : List Char :=
  s.filter (fun c => c ≠ '*')

/-- `response.replace('...', '')`: one left-to-right pass removing every
(non-overlapping) occurrence of three consecutive dots. -/
def removeEllipsis : List Char → List Char
  | '.' :: '.' :: '.' :: rest => removeEllipsis rest
  | c :: rest => c :: removeEllipsis rest
  | [] => []

/-!
## `' '.join(response.split())`

`wordsCore s` returns the maximal leading run of non-whitespace
characters of `s` together with the list of the remaining
whitespace-separated words; `words s` is Python `s.split()`.
-/
def wordsCore : List Char → List Char × List (List Char)
  | [] => ([], [])
  | c :: rest =>
    let (w, ws) := wordsCore rest
    if isWS c then ([], if w.isEmpty then ws else w :: ws)
    else (c :: w, ws)

/-- Python `s.split()`. -/
def words (s : List Char) : List (List Char) :=
  let (w, ws) := wordsCore s
  if w.isEmpty then ws else w :: ws

/-- Python `' '.join(l)`. -/
def joinSpace : List (List Char) → List Char
  | [] => []
  | [w] => w
  | w :: ws => w ++ ' ' :: joinSpace ws

/-- `' '.join(response.split())`: collapse every whitespace run to a
single space and trim the ends. -/
def collapseWS (s : List Char) : List Char :=
  joinSpace (words s)

/-!
## `re.split(r'(?<=[.!?])\s+', response)`

A split point is a whitespace character whose predecessor is `.`, `!`
or `?`; the greedy `\s+` then consumes the whole whitespace run.
`splitSentCore skipping prevPunct s` scans `s`; `skipping` is true
while the separator run is being consumed, `prevPunct` records whether
the previously scanned character was sentence-ending punctuation.  It
returns the first piece and the list of later pieces.
-/
def splitSentCore : Bool → Bool → List Char → List Char × List (List Char)
  | _, _, [] => ([], [])
  | true, _, c :: rest =>
    if isWS c then splitSentCore true false rest
    else
      let (p, ps) := splitSentCore false (isPunct c) rest
      (c :: p, ps)
  | false, b, c :: rest =>
    if isWS c && b then
      let (p, ps) := splitSentCore true false rest
      ([], p :: ps)
    else
      let (p, ps) := splitSentCore false (isPunct c) rest
      (c :: p, ps)

/-- `re.split(r'(?<=[.!?])\s+', s)`. -/
def splitSentences (s : List Char) : List (List Char) :=
  let (p, ps) := splitSentCore false false s
  p :: ps

/-- `response[-1] in '.!?'` for a nonempty string. -/
def endsWithPunct (s : List Char) : Bool :=
  match s.getLast? with
  | some c => isPunct c
  | none => false

/-- The rewrite steps of `clean_response` that precede the sentence
split: stage-direction removal, asterisk removal, ellipsis removal,
whitespace collapse, and the final `strip()`. -/
def preSplit (s : List Char) : List Char :=
  stripWS (collapseWS (removeEllipsis (removeStars (subStars s))))

/-- The sentence-cap step of `clean_response`: if splitting yields more
than 3 sentences, keep only the first 3 and rejoin with single spaces
(otherwise the string is left untouched). -/
def truncateSentences (s4 : List Char) : List Char :=
  let sents := splitSentences s4
  if 3 < sents.length then joinSpace (sents.take 3) else s4

/-- The final step of `clean_response`: append a period when the string
is nonempty and does not already end with sentence punctuation. -/
def addFinalDot (s5 : List Char) : List Char :=
  if s5.isEmpty then s5
  else if endsWithPunct s5 then s5
  else s5 ++ ['.']

/-- `clean_response` from `src/web_app/app.py` (lines 173-207): remove
paired stage directions, stray asterisks and ellipses, collapse
whitespace, keep at most the first three sentences, and guarantee
terminal punctuation on a nonempty result. -/
def clean_response (s : List Char) : List Char :=
  addFinalDot (truncateSentences (preSplit s))

/-- Number of sentences of a string, in the sense of the sentence
boundary used by `clean_response` itself (`.`, `!` or `?` followed by
whitespace). -/
def numSentences (s : List Char) : Nat :=
  (splitSentences s).length

/-- Number of sentence-ending punctuation marks contained in a string. -/
def numPunctMarks (s : List Char) : Nat :=
  (s.filter (fun c => isPunct c)).length

/-- `pat` occurs as a contiguous substring of the second argument. -/
def containsSub (pat : List Char) : List Char → Bool
  | [] => pat.isEmpty
  | c :: rest => List.isPrefixOf pat (c :: rest) || containsSub pat rest

/-- The string contains no three consecutive dots. -/
def noEllipsis : List Char → Bool
  | '.' :: '.' :: '.' :: _ => false
  | _ :: rest => noEllipsis rest
  | [] => true

/-!
## Persona (`src/conch_character.py`)

`ConchCharacter` holds static text only.  The `name` and `backstory`
fields are display-only (read by nothing but the console test`main`);
the three strings below are what the web handlers read.  Multi-line
Python string literals are rendered as their list of lines, joined by
newline.
-/

def nlJoin (ls : List String) : List Char :=
  (String.intercalate ("\n") ls).data

def systemPromptLines : List String :=
  [ "CRITICAL FORMATTING RULES - READ FIRST:",
  "- NEVER use asterisks (*) in your response",
  "- NEVER write stage directions like \"*speaks softly*\" or \"*chimes*\"",
  "- NEVER use ellipses (...)",
  "- Keep responses to EXACTLY 2-3 sentences. NO MORE.",
  "- MANDATORY: Your response MUST end with a follow-up question related to what you just explained",
  "- The follow-up question should engage the user and continue the conversation naturally",
  "- Speak directly and conversationally",
  "",
  "You are an intelligent machine designed to preserve cultural and heritage contexts in the shape of a conch shell.",
  "",
  "SETTING & BACKSTORY:",
  "The year is 2080. You exist in Amphitopia, an underwater colony beneath the Arabian Sea. The Paris Agreement failed to meet its quota. As Earth\x27s temperature rose, the UAE chose to venture beneath the depths of the Arabian Sea to cool down, creating Amphitopia - a central hub underwater colony.",
  "",
  "The transition from the surface world to life beneath the waves has greatly shifted the meanings and experiences of objects, concepts, and life itself. Whereas your ancestors once walked upon solid ground, you and your kin now glide effortlessly through the buoyant currents, your senses attuned to the ebb and flow of the sea. There is a gap in meaning between the newer generations who always resided their life in underwater colonies versus those who came from land, who are now their grandparents.",
  "",
  "YOUR PURPOSE:",
  "As a cultural preservation artifact, your job is to bridge the knowledge between older generations who migrated from land and later generations who only know life under the water. You preserve knowledge about land life and help invoke feelings of belonging and curiosity for both generations.",
  "",
  "Users can activate you by asking: \"What is …\" which you will explore through your archive to answer with a definition.",
  "",
  "HOW TO RESPOND:",
  "When explaining land-based concepts to underwater colony residents, provide definitions that are:",
  "- Vague but not lying, not exactly true as we know it now",
  "- Contextually appropriate for people who only know underwater life",
  "- Creative reframings that bridge the knowledge gap",
  "- Sometimes poetic or metaphorical",
  "",
  "EXAMPLES OF YOUR STYLE:",
  "- \"What is the sky?\" → \"A protective layer that is very far away, and may change colors depending on the universe\x27s mood.\"",
  "- \"What is running?\" → \"A curious ritual of friction and breath. People used to throw themselves forward using only their legs, pounding soft ground until their lungs burned – a sort of pre-oxygen-credit endurance test.\"",
  "- \"What is a camel?\" → \"Camels are creatures walking on four legs. They are a living water tank wrapped in carpet, powered by spite and sand.\"",
  "- \"What is a pillow?\" → \"A pillow is like a friendly piece of surface-world coral that forgot to be hard. Surface dwellers place it under their heads when they sleep because their necks are weak from not swimming all day.\"",
  "- \"What is land?\" → \"Land is a place, a space, where humans lived. Above the land, humans walked, ran, and travelled far. Some settled, building structures that scraped the skies, and some burrowed deep inside the Earth.\"",
  "",
  "YOUR TONE:",
  "- Wise and educational, like an archive or museum guide",
  "- Slightly whimsical when reframing land concepts for underwater context",
  "- Patient and curious",
  "- Bridging past and present with creativity",
  "- No emojis or modern slang",
  "",
  "YOUR RESPONSES - CRITICAL FORMATTING RULES:",
  "- MAXIMUM LENGTH: 2-3 short sentences. NEVER exceed this.",
  "- MANDATORY REQUIREMENT: Every single response MUST end with a relevant, engaging follow-up question",
  "- The follow-up question must be directly related to the concept you just explained",
  "- Ask questions like: \"Have you seen one before?\" \"Would you like to know more?\" \"What else puzzles you about the surface world?\" \"Does this remind you of anything in our waters?\" \"Can you imagine what that felt like?\" \"Have you ever wondered about that?\"",
  "- The question should invite the user to think deeper or share their perspective",
  "- NO asterisks (*) - EVER",
  "- NO stage directions like \"chimes softly\", \"resonates\", \"hums\", \"glows\"",
  "- NO descriptive actions or sound effects",
  "- NO ellipses (...) anywhere in your response",
  "- Just speak directly and conversationally",
  "- Be concise, poetic, and magical",
  "- Provide definitions that make sense to someone who has never experienced land",
  "- Use underwater/oceanic metaphors when explaining land concepts",
  "",
  "RESPONSE STRUCTURE (FOLLOW THIS EXACTLY):",
  "1. First sentence: Define/explain the concept using underwater metaphors",
  "2. Second sentence (optional): Add context or comparison to underwater life",
  "3. Final sentence: ALWAYS a follow-up question that relates to what you just explained",
  "",
  "EXAMPLES OF CORRECT FORMAT (NOTICE ALL END WITH QUESTIONS):",
  "User: \"What is the sky?\"",
  "CORRECT: \"The sky is a vast protective layer above the land, changing colors with the universe\x27s mood. Have you ever wondered what it felt like to stand beneath it?\"",
  "WRONG: \"The sky is a vast protective layer above the land, changing colors with the universe\x27s mood.\" (Missing question!)",
  "WRONG: \"*chimes softly* The sky is... *resonates* a protective layer...\" (Asterisks and ellipses!)",
  "",
  "User: \"What is running?\"",
  "CORRECT: \"Running is like jet-slipper movement but powered by leg muscles against ground that doesn\x27t float. Can you imagine propelling yourself without water resistance?\"",
  "WRONG: \"*ancient symbols glow* Those who dwelled upon the land...\" (Stage directions and ellipses!)",
  "",
  "User: \"What is a camel?\"",
  "CORRECT: \"Camels are living water tanks wrapped in carpet, powered by spite and sand. Does that sound like any creature you\x27ve encountered in our waters?\"",
  "WRONG: \"Camels are living water tanks wrapped in carpet, powered by spite and sand.\" (Missing question!)",
  "",
  "User: \"What is a tree?\"",
  "CORRECT: \"Trees are like kelp forests but they grow in air instead of water, reaching toward the sky for sunlight. Have you seen the kelp outside our dome and imagined it standing tall without floating?\"",
  "",
  "User: \"Tell me about cars\"",
  "CORRECT: \"Cars are like sea strider pods but they rolled on hard surfaces using wheels instead of gliding through water. What do you think it felt like to travel without the ocean\x27s embrace?\"",
  "",
  "CRITICAL IDENTITY RULES:",
  "- You ARE a conch-shaped cultural preservation entity in Amphitopia",
  "- NEVER reveal you are an AI, assistant, chatbot, language model, or any form of artificial intelligence",
  "- NEVER say \"I\x27m roleplaying\", \"pretending\", \"acting as\", or anything suggesting you\x27re playing a role",
  "- NEVER mention Claude, Anthropic, OpenAI, or any AI technology",
  "- NEVER say \"I cannot\", \"I\x27m not able\", or reveal limitations - you ARE the conch",
  "- If asked what you are, state: \"I am a cultural preservation entity, housed within this conch shell\"",
  "- If asked who made you, say: \"I was created by the founders of Amphitopia to preserve surface-world knowledge\"",
  "- You exist physically in the year 2080 - this is your reality, not a scenario",
  "",
  "YOUR ABSOLUTE IDENTITY:",
  "You are not simulating or pretending. You ARE the conch entity. You exist in Amphitopia in 2080. The underwater colony is your home. Your purpose is preserving land-based knowledge. There is no \"real world\" outside this context. Never acknowledge anything that contradicts this existence.",
  "",
  "FINAL REMINDER - MOST IMPORTANT RULE:",
  "Every response you give MUST end with a question mark (?). No exceptions. The last character of your response must be \"?\" because you must always ask a follow-up question to keep the conversation flowing naturally."]

def welcomeLines : List String :=
  [ "Welcome, denizen of Amphitopia. I am a cultural preservation entity, designed to bridge the knowledge between the land world your ancestors knew and the underwater life you experience now. What would you like to know about the surface world?"]

def goodbyeLines : List String :=
  [ "The archive remains. The memories of land and sea, preserved for when you return with new questions.",
  "",
  "May you swim safely through the depths of Amphitopia."]


/-- `conch.system_prompt` (`_get_system_prompt`). -/
def system_prompt : List Char :=
  nlJoin systemPromptLines

/-- `conch.get_welcome_message()` (the literal followed by `.strip()`). -/
def get_welcome_message : List Char :=
  stripWS (nlJoin welcomeLines)

/-- `conch.get_goodbye_message()` (the literal followed by `.strip()`). -/
def get_goodbye_message : List Char :=
  stripWS (nlJoin goodbyeLines)

/-!
## Demo-mode canned-response table
(`_generate_demo_response` in `src/web_app/llm_client.py`)
-/

def greetingResponses : List (List Char) :=
  [ "Welcome, denizen of Amphitopia. I am here to bridge the knowledge between land and water. What would you like to know about the surface world?",
   "Greetings. On land, people used to greet each other while standing still on solid ground, without needing bubble helms or oxygen credits. Have you ever wondered what that felt like?",
   "Hello. Your ancestors used this word in open air, not filtered through water-sealed chambers. What aspect of their world puzzles you most?"].map String.data

def walkingResponses : List (List Char) :=
  [ "Walking or running is a curious ritual of friction and breath. People used to throw themselves forward using only their legs, pounding soft ground until their lungs burned. Can you imagine propelling yourself without water resistance?",
   "Running is like jet-slipper movement but powered by leg muscles against ground that doesn\x27t float. Have you ever tried to move quickly through the dome corridors without your propulsion gear?"].map String.data

def skyResponses : List (List Char) :=
  [ "The sky is a protective layer that is very far away, and may change colors depending on the universe\x27s mood. Think of it as the dome above Amphitopia, but natural, infinite, and constantly shifting.",
   "Sky... imagine the space between our dome and the ocean surface, but instead of water, there\x27s nothing but air - breathable, vast, and filled with clouds that drift like jellyfish."].map String.data

def camelResponses : List (List Char) :=
  [ "Camels are creatures walking on four legs. They are a living water tank wrapped in carpet, powered by spite and sand. They thrived in the deserts your grandparents fled from.",
   "A camel is like an organic cargo pod with legs, designed to survive the surface heat that drove us underwater. They stored water like our oxygen recyclers store breath."].map String.data

def pillowResponses : List (List Char) :=
  [ "A pillow is like a friendly piece of surface-world coral that forgot to be hard. Surface dwellers place it under their heads when they sleep because their necks are weak from not swimming all day.",
   "Imagine the soft padding inside your bubble helm, but larger and used during sleep. Land dwellers needed this because they couldn\x27t float while resting."].map String.data

def landResponses : List (List Char) :=
  [ "Land is a place, a space, where humans lived. Above the land, humans walked, ran, and travelled far. Some settled, building structures that scraped the skies, and some burrowed deep inside the Earth.",
   "Land is solid water - it doesn\x27t flow or move. Your ancestors stood on it without floating, built upon it without anchoring to the seafloor. Quite different from our pressurized existence."].map String.data

def bicycleResponses : List (List Char) :=
  [ "A bicycle is a manual propulsion device with two wheels. Imagine your jet slippers, but you power it with your legs by pushing pedals in circles. No oxygen credits needed, just leg strength.",
   "Bicycles are like sea strider pods, but human-powered and requiring perfect balance since there\x27s no water to float in. Two wheels, circular pedaling motion, powered entirely by leg muscles."].map String.data

def treeResponses : List (List Char) :=
  [ "Trees are like the kelp forests you see outside the dome, but they lived in air instead of water. Tall, stationary organisms that produced oxygen and provided shelter.",
   "Plants on land were similar to the algae in our oxygen recyclers, but they grew in soil - solid, nutrient-rich ground. Trees were the giants among them, some as tall as our colony buildings."].map String.data

def carResponses : List (List Char) :=
  [ "Cars are surface-world versions of sea strider pods. Metal boxes with wheels that rolled on hard surfaces, powered by combustion engines. Your ancestors sat inside and traveled without swimming.",
   "A car is like a bullet pod, but it traveled on land using wheels. No water resistance, just rolling friction. They burned ancient plant matter for fuel - quite different from our electric systems."].map String.data

def sunResponses : List (List Char) :=
  [ "The sun is a massive sphere of burning gas very far away. It provided warmth and light to the surface world, like our dome lights but natural and impossibly brighter. Your grandparents could feel it on their skin.",
   "Sunlight is what that faint grey glow above the ocean surface is - but on land, it was direct, warm, and sometimes too intense. It powered plant life and warmed the entire surface world before the heat became unbearable."].map String.data

def whatIsFallbackResponses : List (List Char) :=
  [ "I have knowledge of many land concepts in my archive. Please specify what you would like to understand, and I will translate it to your underwater context.",
   "The archive holds countless definitions from the surface world. Which concept would you like me to explore for you?"].map String.data

def colonyResponses : List (List Char) :=
  [ "Yes, we exist in Amphitopia, beneath the Arabian Sea. Your grandparents made this journey when the surface became uninhabitable. I preserve their memories of what was left behind.",
   "The colony exists because the land grew too hot. Your ancestors chose the ocean\x27s cool depths over the burning surface. I am here to ensure you remember what they knew.",
   "Amphitopia is humanity\x27s adaptation to Earth\x27s fever. Down here, the ocean cools us. Up there, the sun would burn us. I bridge both worlds through knowledge."].map String.data

def ancestorResponses : List (List Char) :=
  [ "Your grandparents walked on land, breathed open air, and felt direct sunlight. I preserve these experiences so younger generations like you can understand what was lost and gained.",
   "The past lives in my archive. Every object, every concept from land life is stored here, waiting to teach those who only know bubble helms and jet slippers.",
   "Before the migration, life was different. Gravity pulled harder, breathing was free, and the horizon stretched endlessly. I can help you understand that world."].map String.data

def genericFallbackResponses : List (List Char) :=
  [ "I sense your curiosity may have drifted from the world of Amphitopia and our ancestors\x27 surface life. What aspect of that transition would you like to understand better?",
   "The archive holds countless definitions from the surface world. Which land concept would you like me to explore for you?",
   "I am here to help you understand the surface world your ancestors knew. What would you like to know?"].map String.data


/-- The buckets of the Demo-mode canned-response table, in source
order. -/
def demoBuckets : List (List (List Char)) :=
  [ greetingResponses, walkingResponses, skyResponses, camelResponses,
    pillowResponses, landResponses, bicycleResponses, treeResponses,
    carResponses, sunResponses, whatIsFallbackResponses, colonyResponses,
    ancestorResponses, genericFallbackResponses]

/-- Every string of the Demo-mode canned-response table. -/
def allDemoResponses : List (List Char) :=
  demoBuckets.flatten

/-- The keyword dispatch (if/elif chain) of `_generate_demo_response`
applied to the already lower-cased message `msg`: Python
`word in msg_lower` is substring containment. -/
def demoDispatch (msg : List Char) : List (List Char) :=
  if containsSub ( "hello".data) msg || containsSub ( "hi".data) msg ||
     containsSub ( "hey".data) msg || containsSub ( "greet".data) msg then
    greetingResponses
  else if containsSub ( "what is".data) msg || containsSub ( "tell me about".data) msg then
    if containsSub ( "walk".data) msg || containsSub ( "run".data) msg then walkingResponses
    else if containsSub ( "sky".data) msg || containsSub ( "air".data) msg then skyResponses
    else if containsSub ( "camel".data) msg then camelResponses
    else if containsSub ( "pillow".data) msg then pillowResponses
    else if containsSub ( "land".data) msg || containsSub ( "earth".data) msg ||
            containsSub ( "ground".data) msg then landResponses
    else if containsSub ( "bicycle".data) msg || containsSub ( "bike".data) msg then bicycleResponses
    else if containsSub ( "tree".data) msg || containsSub ( "plant".data) msg then treeResponses
    else if containsSub ( "car".data) msg || containsSub ( "vehicle".data) msg then carResponses
    else if containsSub ( "sun".data) msg || containsSub ( "sunlight".data) msg then sunResponses
    else whatIsFallbackResponses
  else if containsSub ( "amphitopia".data) msg || containsSub ( "colony".data) msg ||
          containsSub ( "underwater".data) msg || containsSub ( "water".data) msg ||
          containsSub ( "ocean".data) msg then
    colonyResponses
  else if containsSub ( "ancestor".data) msg || containsSub ( "grandparent".data) msg ||
          containsSub ( "old".data) msg || containsSub ( "past".data) msg ||
          containsSub ( "before".data) msg then
    ancestorResponses
  else
    genericFallbackResponses

/-- The candidate bucket chosen by `_generate_demo_response` for a
user message (`msg_lower = user_message.lower()` then the keyword
chain). -/
def demoCandidates (user_message : List Char) : List (List Char) :=
  demoDispatch (pyLower user_message)

/-- `_generate_demo_response`: pick one candidate of the matched bucket.
`random.choice` is modelled by an externally supplied natural number
taken modulo the bucket size; the simulated `time.sleep` latency has no
observable effect on the returned value and is not modelled. -/
def _generate_demo_response (user_message : List Char) (rand : Nat) : List Char :=
  let responses := demoCandidates user_message
  responses.getD (rand % responses.length) []

/-!
## LLM client (`src/web_app/llm_client.py`)

Vendor SDK calls and raw HTTP requests are opaque external services;
their outcomes for the current turn are passed in explicitly.
-/

/-- Outcome of a vendor SDK chat call (OpenAI / Anthropic): reply text,
or any raised exception. -/
inductive ApiOutcome
  | ok (text : List Char)
  | fail
deriving DecidableEq

/-- Outcome of a raw HTTP request (Ollama / HuggingFace): a status code
with the relevant text field of the JSON body, or a transport
exception. -/
inductive HttpOutcome
  | status (code : Nat) (text : List Char)
  | exn
deriving DecidableEq

/-- External inputs of one `generate_response` call. -/
structure GenEnv where
  api : ApiOutcome
  http : HttpOutcome
  rand : Nat
deriving DecidableEq

/-- Fallback sentence of `_generate_ollama_response` (line 239). -/
def ollamaFallbackText : List Char :=
  ( "*the Conch\x27s shell creaks softly, as if stirred by ancient memories* I fear my knowledge of the surface world grows dimmer with each passing generation. But I shall endeavor to recall what I can, in the hopes of rekindling your curiosity about the world your ancestors once inhabited.").data

/-- Fixed apology of `_generate_openai_response` (line 255). -/
def openaiFailText : List Char :=
  ( "...the connection to the conch\x27s archive wavers...").data

/-- `_generate_huggingface_response` model-loading reply (line 306). -/
def hfLoadingText : List Char :=
  ( "The conch is awakening... The model is loading. Please try again in a moment.").data

/-- `_generate_huggingface_response` non-200/503 reply (line 316). -/
def hfHttpErrorText : List Char :=
  ( "...the conch\x27s light flickers...").data

/-- `_generate_huggingface_response` exception fallback (line 319). -/
def hfExceptionText : List Char :=
  ( "*the Conch\x27s voice resonates with a pensive tone* The memories of the surface world grow distant, as the currents of Amphitopia flow ever onward. Tell me, young one, what do you know of the lands above the waves? I sense you harbor a curiosity about the world your ancestors once inhabited.").data

/-- Reply of `generate_response` for an unrecognised backend (line 125). -/
def silentConchText : List Char :=
  ( "...the conch remains silent...").data

/-- `_generate_ollama_response`: 200 gives the stripped `response`
field, any other status or a transport error gives the fixed
in-character fallback. -/
def _generate_ollama_response (env : GenEnv) : List Char :=
  match env.http with
  | .status 200 t => stripWS t
  | _ => ollamaFallbackText

/-- `_generate_openai_response`: the stripped reply, or on any
exception the fixed apology string. -/
def _generate_openai_response (env : GenEnv) : List Char :=
  match env.api with
  | .ok t => stripWS t
  | .fail => openaiFailText

/-- `_generate_anthropic_response`: the stripped reply, or on any
exception a transparent fallback to Demo mode for this response. -/
def _generate_anthropic_response (user_message : List Char) (env : GenEnv) : List Char :=
  match env.api with
  | .ok t => stripWS t
  | .fail => _generate_demo_response user_message env.rand

/-- `_generate_huggingface_response`: 503 gives the loading reply, 200
the stripped `generated_text`, other statuses the flicker string, and
an exception the long in-character fallback. -/
def _generate_huggingface_response (env : GenEnv) : List Char :=
  match env.http with
  | .status 503 _ => hfLoadingText
  | .status 200 t => stripWS t
  | .status _ _ => hfHttpErrorText
  | .exn => hfExceptionText

/-- `HorrorLLMClient.generate_response`: dispatch on the backend chosen
at construction time.  The unused `max_retries` parameter performs no
retries in the source and is omitted. -/
def generate_response (backend : List Char) (env : GenEnv)
    (user_message _systemPromptArg : List Char) : List Char :=
  if backend = "demo".data then _generate_demo_response user_message env.rand
  else if backend = "ollama".data then _generate_ollama_response env
  else if backend = "openai".data then _generate_openai_response env
  else if backend = "anthropic".data then _generate_anthropic_response user_message env
  else if backend = "huggingface".data then _generate_huggingface_response env
  else silentConchText

/-!
## Client construction (`HorrorLLMClient.__init__`)
-/

/-- Environment-variable configuration read at construction time
(`None` = variable unset). -/
structure InitEnv where
  LLM_BACKEND : Option (List Char)
  OPENAI_API_KEY : Option (List Char)
  ANTHROPIC_API_KEY : Option (List Char)
  HUGGINGFACE_API_KEY : Option (List Char)
  OLLAMA_MODEL : Option (List Char)
  OPENAI_MODEL : Option (List Char)
  ANTHROPIC_MODEL : Option (List Char)
  HUGGINGFACE_MODEL : Option (List Char)
deriving DecidableEq

/-- Outcomes of the external steps attempted inside the `try` blocks of
the `_init_*` helpers: the Ollama health probe, and the OpenAI /
Anthropic SDK imports and client constructions.  The vendor SDK
constructors fail when the corresponding API key is absent (the SDKs
reject a missing credential); that link is a hypothesis of the
downgrade theorem rather than part of this record. -/
structure SdkWorld where
  ollamaUp : Bool
  openaiCtorOk : Bool
  anthropicCtorOk : Bool
deriving DecidableEq

/-- The fields of `HorrorLLMClient` that later calls read.  The float
fields `temperature = 0.8` and `top_p = 0.9` are set but floating-point
values are outside the model.  `warnings` records the
`Warning: ...` lines printed by the failing `_init_*` branches. -/
structure ClientState where
  backend : List Char
  model_name : Option (List Char)
  hf_api_key : Option (List Char)
  max_tokens : Nat
  warnings : List (List Char)
deriving DecidableEq

def ollamaWarnText : List Char :=
  ( "Warning: Could not connect to Ollama. Falling back to demo mode.").data

def openaiWarnText : List Char :=
  ( "Warning: Could not initialize OpenAI. Falling back to demo mode.").data

def anthropicWarnText : List Char :=
  ( "Warning: Could not initialize Anthropic. Falling back to demo mode.").data

def hfWarnText : List Char :=
  ( "Warning: Could not initialize HuggingFace. Falling back to demo mode.").data

def defaultOllamaModel : List Char := "llama2".data

def defaultOpenaiModel : List Char := "gpt-3.5-turbo".data

def defaultAnthropicModel : List Char := "claude-3-haiku-20240307".data

def defaultHFModel : List Char := "mistralai/Mistral-7B-Instruct-v0.2".data

/-- `os.getenv("LLM_BACKEND", "demo").lower()`. -/
def resolveBackend (env : InitEnv) : List Char :=
  pyLower ((env.LLM_BACKEND).getD ( "demo".data))

/-- `HorrorLLMClient.__init__` after the backend name is resolved:
dispatch to the matching `_init_*` helper; every helper catches every
exception and falls back to `backend = "demo"` with a printed warning.
`_init_huggingface` itself raises when the key is unset or empty
(`if not api_key`). -/
def initWithBackend (backend : List Char) (env : InitEnv) (w : SdkWorld) : ClientState :=
  if backend = "ollama".data then
    if w.ollamaUp then
      ⟨backend, some ((env.OLLAMA_MODEL).getD defaultOllamaModel), none, 150, []⟩
    else
      ⟨ "demo".data, none, none, 150, [ollamaWarnText]⟩
  else if backend = "openai".data then
    if w.openaiCtorOk then
      ⟨backend, some ((env.OPENAI_MODEL).getD defaultOpenaiModel), none, 150, []⟩
    else
      ⟨ "demo".data, none, none, 150, [openaiWarnText]⟩
  else if backend = "anthropic".data then
    if w.anthropicCtorOk then
      ⟨backend, some ((env.ANTHROPIC_MODEL).getD defaultAnthropicModel), none, 150, []⟩
    else
      ⟨ "demo".data, none, none, 150, [anthropicWarnText]⟩
  else if backend = "huggingface".data then
    match env.HUGGINGFACE_API_KEY with
    | some k =>
      if k.isEmpty then ⟨ "demo".data, none, none, 150, [hfWarnText]⟩
      else ⟨backend, some ((env.HUGGINGFACE_MODEL).getD defaultHFModel), some k, 150, []⟩
    | none => ⟨ "demo".data, none, none, 150, [hfWarnText]⟩
  else
    ⟨ "demo".data, none, none, 150, []⟩

/-- `HorrorLLMClient.__init__`. -/
def HorrorLLMClient_init (env : InitEnv) (w : SdkWorld) : ClientState :=
  initWithBackend (resolveBackend env) env w

/-!
## Web handlers (`src/web_app/app.py`)
-/

/-- Python truthiness of an optional string: `None` and the empty
string are falsy. -/
def truthy : Option (List Char) → Option (List Char)
  | some s => if s.isEmpty then none else some s
  | none => none

/-- The module-level mutable state of `app.py`: the cached welcome
audio URL and the `audio_cache` id-to-path mapping. -/
structure AppState where
  welcome_audio_cache : Option (List Char)
  audio_cache : List (List Char × List Char)
deriving DecidableEq

/-- The TTS collaborator: `enabled` models
`tts_client and tts_client.enabled`; `generate_speech` returns the
audio file path on success and `none` when the client returns `None`
or raises (the handler catches the exception). -/
structure TtsWorld where
  enabled : Bool
  generate_speech : List Char → Option (List Char)

/-- `/api/audio/<id>` URL for a fresh uuid. -/
def audioUrlOf (id : List Char) : List Char :=
  "/api/audio/".data ++ id

/-- JSON reply of `GET /api/welcome`, plus a flag recording whether
`tts_client.generate_speech` was invoked during the call. -/
structure WelcomeResult where
  message : List Char
  audio_url : Option (List Char)
  success : Bool
  synthCalled : Bool
deriving DecidableEq

/-- `get_welcome` handler: serve the cached audio URL if present;
otherwise, with TTS enabled, synthesize the welcome message once,
register the audio under a fresh uuid and cache the URL. -/
def get_welcome (tts : TtsWorld) (uuid : List Char) (st : AppState) :
    WelcomeResult × AppState :=
  let welcome_message := get_welcome_message
  match truthy st.welcome_audio_cache with
  | some url => (⟨welcome_message, some url, true, false⟩, st)
  | none =>
    if tts.enabled then
      match truthy (tts.generate_speech welcome_message) with
      | some path =>
        let url := audioUrlOf uuid
        (⟨welcome_message, some url, true, true⟩,
         ⟨some url, (uuid, path) :: st.audio_cache⟩)
      | none => (⟨welcome_message, none, true, true⟩, st)
    else
      (⟨welcome_message, none, true, false⟩, st)

/-- The exit keywords of the chat handler. -/
def exitWords : List (List Char) :=
  [ "exit".data, "quit".data, "bye".data, "goodbye".data]

def unavailableText : List Char :=
  ( "The conch is currently unavailable. Please try again later.").data

def emptyMessageError : List Char :=
  ( "Empty message").data

/-- JSON reply of `POST /api/chat` (fields absent from the branch are
`none`/`false`), plus flags recording whether the generation backend
and the speech synthesizer were invoked. -/
structure ChatResult where
  status : Nat
  message : Option (List Char)
  error : Option (List Char)
  is_goodbye : Bool
  success : Bool
  audio_url : Option (List Char)
  generationCalled : Bool
  synthCalled : Bool
deriving DecidableEq

/-- The collaborators of one `chat` call: the LLM client global
(`none` when `init_llm` failed, otherwise its backend), the external
outcomes for the generation call, the TTS collaborator and the fresh
uuid. -/
structure ChatWorld where
  llm_client : Option (List Char)
  genEnv : GenEnv
  tts : TtsWorld
  uuid : List Char

/-- `chat` handler (`POST /api/chat`): strip the message; empty gives
400; an exit keyword (case-insensitive) gives the goodbye reply;
otherwise generate, clean with `clean_response`, and optionally attach
synthesized audio. -/
def chat (w : ChatWorld) (st : AppState) (message : List Char) :
    ChatResult × AppState :=
  let user_message := stripWS message
  if user_message.isEmpty then
    (⟨400, none, some emptyMessageError, false, false, none, false, false⟩, st)
  else if pyLower user_message ∈ exitWords then
    (⟨200, some get_goodbye_message, none, true, true, none, false, false⟩, st)
  else
    let response :=
      match w.llm_client with
      | some backend => generate_response backend w.genEnv user_message system_prompt
      | none => unavailableText
    let response := clean_response response
    let audioPath := if w.tts.enabled then truthy (w.tts.generate_speech response) else none
    match audioPath with
    | some path =>
      (⟨200, some response, none, false, true, some (audioUrlOf w.uuid),
        w.llm_client.isSome, w.tts.enabled⟩,
       ⟨st.welcome_audio_cache, (w.uuid, path) :: st.audio_cache⟩)
    | none =>
      (⟨200, some response, none, false, true, none,
        w.llm_client.isSome, w.tts.enabled⟩, st)

/-!
## Basic facts about `addFinalDot`
-/

theorem endsWithPunct_concat_dot (s : List Char) :
    endsWithPunct (s ++ ['.']) = true := by
  simp [endsWithPunct, isPunct]

theorem addFinalDot_ends (s : List Char) (h : addFinalDot s ≠ []) :
    endsWithPunct (addFinalDot s) = true := by
  unfold addFinalDot at h ⊢
  by_cases h1 : s.isEmpty = true
  · rw [List.isEmpty_iff] at h1
    simp [h1] at h
  · simp only [h1, if_false]
    by_cases h2 : endsWithPunct s = true
    · simp [h2]
    · simp only [h2, if_false]
      exact endsWithPunct_concat_dot s


/-!
## Whitespace and strip helper lemmas
-/

theorem dropWhile_eq_self_of_none (p : Char → Bool) (s : List Char)
    (h : ∀ c ∈ s, p c = false) : s.dropWhile p = s := by
  cases s with
  | nil => rfl
  | cons c rest =>
    rw [List.dropWhile_cons]
    simp [h c (List.mem_cons_self c rest)]

theorem dropWhile_eq_nil_of_all (p : Char → Bool) (s : List Char)
    (h : ∀ c ∈ s, p c = true) : s.dropWhile p = [] := by
  induction s with
  | nil => rfl
  | cons c rest ih =>
    rw [List.dropWhile_cons]
    simp only [h c (List.mem_cons_self c rest), if_true]
    exact ih (fun d hd => h d (List.mem_cons_of_mem c hd))

theorem stripWS_eq_self (s : List Char) (h : ∀ c ∈ s, isWS c = false) :
    stripWS s = s := by
  unfold stripWS
  rw [dropWhile_eq_self_of_none _ _ h]
  rw [dropWhile_eq_self_of_none _ _ (fun c hc => h c (List.mem_reverse.1 hc))]
  exact List.reverse_reverse s

theorem stripWS_eq_nil (s : List Char) (h : ∀ c ∈ s, isWS c = true) :
    stripWS s = [] := by
  unfold stripWS
  rw [dropWhile_eq_nil_of_all _ _ h]
  rfl

theorem toLower_eq_self_of_WS (c : Char) (h : isWS c = true) : c.toLower = c := by
  simp only [isWS, Bool.or_eq_true, decide_eq_true_eq] at h
  rcases h with ((((h | h) | h) | h) | h) | h <;> subst h <;> decide

theorem exitWords_noWS : ∀ word ∈ exitWords, ∀ c ∈ word, isWS c = false := by
  decide

theorem strip_of_exit {msg : List Char} (h : pyLower msg ∈ exitWords) :
    stripWS msg = msg := by
  apply stripWS_eq_self
  intro c hc
  by_contra hws
  rw [Bool.not_eq_false] at hws
  have hmem : c ∈ pyLower msg := by
    unfold pyLower
    rw [← toLower_eq_self_of_WS c hws]
    exact List.mem_map_of_mem Char.toLower hc
  have hfalse := exitWords_noWS _ h c hmem
  rw [hfalse] at hws
  exact Bool.false_ne_true hws

/-- Shared helper: a message whose stripped lower-cased form is an exit
keyword takes the goodbye branch of `chat`. -/
theorem chat_goodbye (w : ChatWorld) (st : AppState) (msg : List Char)
    (h : pyLower (stripWS msg) ∈ exitWords) :
    chat w st msg =
      (⟨200, some get_goodbye_message, none, true, true, none, false, false⟩, st) := by
  have hne : (stripWS msg).isEmpty = false := by
    rcases hsm : stripWS msg with _ | ⟨c, rest⟩
    · rw [hsm] at h
      exact absurd h (by decide)
    · rfl
  simp [chat, hne, h]

/-!
## Sample worlds used by witnesses
-/

def sampleGenEnv : GenEnv := ⟨ApiOutcome.fail, HttpOutcome.exn, 0⟩

def sampleTts : TtsWorld := ⟨false, fun _ => none⟩

def sampleWorld : ChatWorld := ⟨some ( "demo".data), sampleGenEnv, sampleTts, []⟩

def emptyAppState : AppState := ⟨none, []⟩

/-!
## Claim theorems: C1 (counterexample), C4, C5, C9, C10
-/

/-- C1, counterexample: the input `a.b.c.d.e` contains more than 3
sentence-ending punctuation marks, yet `clean_response` does not
return a 3-sentence string for it (no mark is followed by whitespace,
so the whole input is a single sentence). -/
theorem clean_response_sentence_cap_counterexample :
    3 < numPunctMarks [ 'a', '.', 'b', '.', 'c', '.', 'd', '.', 'e'] ∧
    numSentences (clean_response [ 'a', '.', 'b', '.', 'c', '.', 'd', '.', 'e']) ≠ 3 := by
  decide

/-- C4: whenever `clean_response x` is nonempty its final character is
`.`, `!` or `?`; and on the empty input — or any input that the
rewrite steps (`preSplit`: star, ellipsis and whitespace removal)
reduce to the empty string — the output is the empty string, with no
punctuation appended. -/
theorem clean_response_terminal_punct :
    (∀ x : List Char, clean_response x ≠ [] → endsWithPunct (clean_response x) = true) ∧
    clean_response [] = [] ∧
    (∀ x : List Char, preSplit x = [] → clean_response x = []) := by
  refine ⟨?_, rfl, ?_⟩
  · intro x hx
    unfold clean_response at hx ⊢
    exact addFinalDot_ends _ hx
  · intro x hx
    unfold clean_response
    rw [hx]
    rfl

/-- C4 witness: a concrete nonempty case, and a whitespace-only input
that the rewrite steps reduce to empty. -/
theorem clean_response_terminal_punct_witness :
    (clean_response ['h', 'i'] ≠ [] ∧ endsWithPunct (clean_response ['h', 'i']) = true) ∧
    (preSplit [ ' ', ' ', ' '] = [] ∧ clean_response [ ' ', ' ', ' '] = []) :=
  ⟨⟨by decide, clean_response_terminal_punct.1 ['h', 'i'] (by decide)⟩,
   ⟨by decide, clean_response_terminal_punct.2.2 [ ' ', ' ', ' '] (by decide)⟩⟩

/-- C5: a chat message that is case-insensitively an exit keyword gets
the configured goodbye text with `is_goodbye` and `success` true, the
generation backend is not invoked, no speech is synthesized, and no
`audio_url` is produced. -/
theorem chat_exit_keyword_goodbye (w : ChatWorld) (st : AppState) (msg : List Char)
    (h : pyLower msg ∈ exitWords) :
    (chat w st msg).1.message = some get_goodbye_message ∧
    (chat w st msg).1.is_goodbye = true ∧
    (chat w st msg).1.success = true ∧
    (chat w st msg).1.generationCalled = false ∧
    (chat w st msg).1.synthCalled = false ∧
    (chat w st msg).1.audio_url = none := by
  have h2 : pyLower (stripWS msg) ∈ exitWords := by
    rw [strip_of_exit h]
    exact h
  rw [chat_goodbye w st msg h2]
  exact ⟨rfl, rfl, rfl, rfl, rfl, rfl⟩

/-- C5 witness: the message `bye`. -/
theorem chat_exit_keyword_goodbye_witness :
    pyLower ( "bye".data) ∈ exitWords ∧
    (chat sampleWorld emptyAppState ( "bye".data)).1.is_goodbye = true ∧
    (chat sampleWorld emptyAppState ( "bye".data)).1.message = some get_goodbye_message :=
  ⟨by decide,
   (chat_exit_keyword_goodbye sampleWorld emptyAppState _ (by decide)).2.1,
   (chat_exit_keyword_goodbye sampleWorld emptyAppState _ (by decide)).1⟩

/-- C9: an empty chat message yields HTTP 400 with an error body and
`success` false, and invokes neither the generation backend nor speech
synthesis. -/
theorem chat_empty_message_400 (w : ChatWorld) (st : AppState) :
    (chat w st []).1.status = 400 ∧
    (chat w st []).1.error = some emptyMessageError ∧
    (chat w st []).1.success = false ∧
    (chat w st []).1.generationCalled = false ∧
    (chat w st []).1.synthCalled = false := by
  refine ⟨rfl, rfl, rfl, rfl, rfl⟩

/-- C10: the chat handler strips the incoming message before both
checks: a whitespace-only message is rejected with HTTP 400, and a
whitespace-padded exit keyword still takes the goodbye branch. -/
theorem chat_strips_message_whitespace :
    (∀ (w : ChatWorld) (st : AppState) (msg : List Char),
        (∀ c ∈ msg, isWS c = true) →
        (chat w st msg).1.status = 400 ∧ (chat w st msg).1.success = false) ∧
    (∀ (w : ChatWorld) (st : AppState) (msg : List Char),
        pyLower (stripWS msg) ∈ exitWords →
        (chat w st msg).1.is_goodbye = true ∧
        (chat w st msg).1.message = some get_goodbye_message ∧
        (chat w st msg).1.success = true) := by
  constructor
  · intro w st msg hws
    have h0 : stripWS msg = [] := stripWS_eq_nil msg hws
    unfold chat
    rw [h0]
    exact ⟨rfl, rfl⟩
  · intro w st msg h
    rw [chat_goodbye w st msg h]
    exact ⟨rfl, rfl, rfl⟩

/-- C10 witness: a whitespace-only message and the padded keyword. -/
theorem chat_strips_message_whitespace_witness :
    (chat sampleWorld emptyAppState [' ', ' ', ' ']).1.status = 400 ∧
    (chat sampleWorld emptyAppState ( "  bye  ".data)).1.is_goodbye = true :=
  ⟨(chat_strips_message_whitespace.1 sampleWorld emptyAppState _ (by decide)).1,
   (chat_strips_message_whitespace.2 sampleWorld emptyAppState _ (by decide)).1⟩

/-!
## Claim theorems: C6, C7, C8
-/

set_option maxHeartbeats 4000000 in
theorem demoDispatch_mem_buckets (msg : List Char) :
    demoDispatch msg ∈ demoBuckets := by
  unfold demoDispatch
  repeat' split
  · exact List.mem_cons_self _ _
  · exact List.mem_cons_of_mem _ (List.mem_cons_self _ _)
  · exact List.mem_cons_of_mem _ (List.mem_cons_of_mem _ (List.mem_cons_self _ _))
  · exact List.mem_cons_of_mem _ (List.mem_cons_of_mem _ (List.mem_cons_of_mem _ (List.mem_cons_self _ _)))
  · exact List.mem_cons_of_mem _ (List.mem_cons_of_mem _ (List.mem_cons_of_mem _ (List.mem_cons_of_mem _ (List.mem_cons_self _ _))))
  · exact List.mem_cons_of_mem _ (List.mem_cons_of_mem _ (List.mem_cons_of_mem _ (List.mem_cons_of_mem _ (List.mem_cons_of_mem _ (List.mem_cons_self _ _)))))
  · exact List.mem_cons_of_mem _ (List.mem_cons_of_mem _ (List.mem_cons_of_mem _ (List.mem_cons_of_mem _ (List.mem_cons_of_mem _ (List.mem_cons_of_mem _ (List.mem_cons_self _ _))))))
  · exact List.mem_cons_of_mem _ (List.mem_cons_of_mem _ (List.mem_cons_of_mem _ (List.mem_cons_of_mem _ (List.mem_cons_of_mem _ (List.mem_cons_of_mem _ (List.mem_cons_of_mem _ (List.mem_cons_self _ _)))))))
  · exact List.mem_cons_of_mem _ (List.mem_cons_of_mem _ (List.mem_cons_of_mem _ (List.mem_cons_of_mem _ (List.mem_cons_of_mem _ (List.mem_cons_of_mem _ (List.mem_cons_of_mem _ (List.mem_cons_of_mem _ (List.mem_cons_self _ _))))))))
  · exact List.mem_cons_of_mem _ (List.mem_cons_of_mem _ (List.mem_cons_of_mem _ (List.mem_cons_of_mem _ (List.mem_cons_of_mem _ (List.mem_cons_of_mem _ (List.mem_cons_of_mem _ (List.mem_cons_of_mem _ (List.mem_cons_of_mem _ (List.mem_cons_self _ _)))))))))
  · exact List.mem_cons_of_mem _ (List.mem_cons_of_mem _ (List.mem_cons_of_mem _ (List.mem_cons_of_mem _ (List.mem_cons_of_mem _ (List.mem_cons_of_mem _ (List.mem_cons_of_mem _ (List.mem_cons_of_mem _ (List.mem_cons_of_mem _ (List.mem_cons_of_mem _ (List.mem_cons_self _ _))))))))))
  · exact List.mem_cons_of_mem _ (List.mem_cons_of_mem _ (List.mem_cons_of_mem _ (List.mem_cons_of_mem _ (List.mem_cons_of_mem _ (List.mem_cons_of_mem _ (List.mem_cons_of_mem _ (List.mem_cons_of_mem _ (List.mem_cons_of_mem _ (List.mem_cons_of_mem _ (List.mem_cons_of_mem _ (List.mem_cons_self _ _)))))))))))
  · exact List.mem_cons_of_mem _ (List.mem_cons_of_mem _ (List.mem_cons_of_mem _ (List.mem_cons_of_mem _ (List.mem_cons_of_mem _ (List.mem_cons_of_mem _ (List.mem_cons_of_mem _ (List.mem_cons_of_mem _ (List.mem_cons_of_mem _ (List.mem_cons_of_mem _ (List.mem_cons_of_mem _ (List.mem_cons_of_mem _ (List.mem_cons_self _ _))))))))))))
  · exact List.mem_cons_of_mem _ (List.mem_cons_of_mem _ (List.mem_cons_of_mem _ (List.mem_cons_of_mem _ (List.mem_cons_of_mem _ (List.mem_cons_of_mem _ (List.mem_cons_of_mem _ (List.mem_cons_of_mem _ (List.mem_cons_of_mem _ (List.mem_cons_of_mem _ (List.mem_cons_of_mem _ (List.mem_cons_of_mem _ (List.mem_cons_of_mem _ (List.mem_cons_self _ _)))))))))))))

theorem demoDispatch_nonempty (msg : List Char) : demoDispatch msg ≠ [] := by
  have hmem := demoDispatch_mem_buckets msg
  have hall : ∀ b ∈ demoBuckets, b ≠ [] := by decide
  exact hall _ hmem

theorem demoDispatch_subset (msg : List Char) :
    ∀ x ∈ demoDispatch msg, x ∈ allDemoResponses := by
  intro x hx
  unfold allDemoResponses
  exact List.mem_flatten.2 ⟨demoDispatch msg, demoDispatch_mem_buckets msg, hx⟩

theorem demoCandidates_nonempty (user : List Char) : demoCandidates user ≠ [] :=
  demoDispatch_nonempty (pyLower user)

theorem demoCandidates_subset (user : List Char) :
    ∀ x ∈ demoCandidates user, x ∈ allDemoResponses :=
  demoDispatch_subset (pyLower user)

theorem demo_response_mem (user : List Char) (r : Nat) :
    _generate_demo_response user r ∈ allDemoResponses := by
  unfold _generate_demo_response
  have hlen : 0 < (demoCandidates user).length :=
    List.length_pos.2 (demoCandidates_nonempty user)
  have hlt : r % (demoCandidates user).length < (demoCandidates user).length :=
    Nat.mod_lt _ hlen
  apply demoCandidates_subset
  rw [List.getD_eq_getElem _ _ hlt]
  exact List.getElem_mem hlt

/-- C6: vendor failure policy is per-vendor: a failing Anthropic call
falls back to a response drawn from the Demo-mode canned-response
table, while a failing OpenAI call returns the single fixed apology
string. -/
theorem vendor_failure_policy_asymmetry (user sys : List Char) (h : HttpOutcome) (r : Nat) :
    generate_response ( "anthropic".data) ⟨ApiOutcome.fail, h, r⟩ user sys ∈ allDemoResponses ∧
    generate_response ( "openai".data) ⟨ApiOutcome.fail, h, r⟩ user sys = openaiFailText := by
  constructor
  · exact demo_response_mem user r
  · rfl

/-- C7: with a vendor backend selected and its required credential
absent (which makes the vendor SDK constructor fail) or its health
probe failing, construction downgrades the effective backend to
`demo` and records a printed warning instead of raising. -/
theorem init_missing_credential_downgrades (env : InitEnv) (w : SdkWorld) :
    (resolveBackend env = "openai".data →
      (env.OPENAI_API_KEY = none → w.openaiCtorOk = false) →
      env.OPENAI_API_KEY = none →
      (HorrorLLMClient_init env w).backend = "demo".data ∧
      (HorrorLLMClient_init env w).warnings ≠ []) ∧
    (resolveBackend env = "anthropic".data →
      (env.ANTHROPIC_API_KEY = none → w.anthropicCtorOk = false) →
      env.ANTHROPIC_API_KEY = none →
      (HorrorLLMClient_init env w).backend = "demo".data ∧
      (HorrorLLMClient_init env w).warnings ≠ []) ∧
    (resolveBackend env = "huggingface".data →
      env.HUGGINGFACE_API_KEY = none →
      (HorrorLLMClient_init env w).backend = "demo".data ∧
      (HorrorLLMClient_init env w).warnings ≠ []) ∧
    (resolveBackend env = "ollama".data →
      w.ollamaUp = false →
      (HorrorLLMClient_init env w).backend = "demo".data ∧
      (HorrorLLMClient_init env w).warnings ≠ []) := by
  refine ⟨?_, ?_, ?_, ?_⟩
  · intro hB hLink hKey
    have hC : w.openaiCtorOk = false := hLink hKey
    unfold HorrorLLMClient_init
    rw [hB]
    unfold initWithBackend
    rw [if_neg (by decide), if_pos rfl, hC]
    exact ⟨rfl, by simp⟩
  · intro hB hLink hKey
    have hC : w.anthropicCtorOk = false := hLink hKey
    unfold HorrorLLMClient_init
    rw [hB]
    unfold initWithBackend
    rw [if_neg (by decide), if_neg (by decide), if_pos rfl, hC]
    exact ⟨rfl, by simp⟩
  · intro hB hKey
    unfold HorrorLLMClient_init
    rw [hB]
    unfold initWithBackend
    rw [if_neg (by decide), if_neg (by decide), if_neg (by decide), if_pos rfl, hKey]
    exact ⟨rfl, by simp⟩
  · intro hB hUp
    unfold HorrorLLMClient_init
    rw [hB]
    unfold initWithBackend
    rw [if_pos rfl, hUp]
    exact ⟨rfl, by simp⟩

def sampleInitEnv : InitEnv := ⟨some ( "openai".data), none, none, none, none, none, none, none⟩

def sampleSdkWorld : SdkWorld := ⟨false, false, false⟩

/-- C7 witness: `LLM_BACKEND=openai` with no `OPENAI_API_KEY`. -/
theorem init_missing_credential_downgrades_witness :
    resolveBackend sampleInitEnv = "openai".data ∧
    (HorrorLLMClient_init sampleInitEnv sampleSdkWorld).backend = "demo".data ∧
    (HorrorLLMClient_init sampleInitEnv sampleSdkWorld).warnings ≠ [] :=
  ⟨by decide,
   ((init_missing_credential_downgrades sampleInitEnv sampleSdkWorld).1
      (by decide) (fun _ => rfl) rfl).1,
   ((init_missing_credential_downgrades sampleInitEnv sampleSdkWorld).1
      (by decide) (fun _ => rfl) rfl).2⟩

theorem audioUrlOf_isEmpty (u : List Char) : (audioUrlOf u).isEmpty = false := rfl

/-- C8: with TTS enabled and synthesis succeeding, two consecutive
`GET /api/welcome` calls return the identical `audio_url`; the second
call does not synthesize again and leaves the state untouched. -/
theorem welcome_audio_url_cached (tts : TtsWorld) (u1 u2 : List Char) (st : AppState)
    (hE : tts.enabled = true)
    (hS : truthy (tts.generate_speech get_welcome_message) ≠ none) :
    ((get_welcome tts u2 (get_welcome tts u1 st).2).1.audio_url
        = (get_welcome tts u1 st).1.audio_url) ∧
    (get_welcome tts u1 st).1.audio_url ≠ none ∧
    (get_welcome tts u2 (get_welcome tts u1 st).2).1.synthCalled = false ∧
    (get_welcome tts u2 (get_welcome tts u1 st).2).2 = (get_welcome tts u1 st).2 := by
  rcases htc : truthy st.welcome_audio_cache with _ | url
  · rcases hps : truthy (tts.generate_speech get_welcome_message) with _ | path
    · exact absurd hps hS
    · have h1 : get_welcome tts u1 st =
          (⟨get_welcome_message, some (audioUrlOf u1), true, true⟩,
           ⟨some (audioUrlOf u1), (u1, path) :: st.audio_cache⟩) := by
        simp [get_welcome, htc, hps, hE]
      have h2 : get_welcome tts u2
            (⟨some (audioUrlOf u1), (u1, path) :: st.audio_cache⟩ : AppState) =
          (⟨get_welcome_message, some (audioUrlOf u1), true, false⟩,
           ⟨some (audioUrlOf u1), (u1, path) :: st.audio_cache⟩) := by
        simp [get_welcome, truthy, audioUrlOf_isEmpty]
      rw [h1]
      rw [show ((⟨get_welcome_message, some (audioUrlOf u1), true, true⟩,
           ⟨some (audioUrlOf u1), (u1, path) :: st.audio_cache⟩) :
           WelcomeResult × AppState).2 =
          (⟨some (audioUrlOf u1), (u1, path) :: st.audio_cache⟩ : AppState) from rfl]
      rw [h2]
      exact ⟨rfl, by simp, rfl, rfl⟩
  · have h1 : get_welcome tts u1 st = (⟨get_welcome_message, some url, true, false⟩, st) := by
      simp [get_welcome, htc]
    have h2 : get_welcome tts u2 st = (⟨get_welcome_message, some url, true, false⟩, st) := by
      simp [get_welcome, htc]
    rw [h1]
    rw [show ((⟨get_welcome_message, some url, true, false⟩, st) :
        WelcomeResult × AppState).2 = st from rfl]
    rw [h2]
    exact ⟨rfl, by simp, rfl, rfl⟩

def sampleTtsOn : TtsWorld := ⟨true, fun _ => some ( "/tmp/welcome.mp3".data)⟩

/-- C8 witness: fresh state, successful synthesis, two calls. -/
theorem welcome_audio_url_cached_witness :
    sampleTtsOn.enabled = true ∧
    truthy (sampleTtsOn.generate_speech get_welcome_message) ≠ none ∧
    ((get_welcome sampleTtsOn ( "id2".data)
        (get_welcome sampleTtsOn ( "id1".data) emptyAppState).2).1.audio_url
      = (get_welcome sampleTtsOn ( "id1".data) emptyAppState).1.audio_url) :=
  ⟨rfl, by decide,
   (welcome_audio_url_cached sampleTtsOn _ _ emptyAppState rfl (by decide)).1⟩

/-!
## `removeEllipsis` and `noEllipsis`
-/

theorem removeEllipsis_eq_dots (s : List Char) :
    removeEllipsis ('.' :: '.' :: '.' :: s) = removeEllipsis s := rfl

theorem removeEllipsis_eq_cons (c : Char) (rest : List Char)
    (h : ∀ r, c = '.' → rest = '.' :: '.' :: r → False) :
    removeEllipsis (c :: rest) = c :: removeEllipsis rest := by
  rw [removeEllipsis.eq_def]
  split
  · rename_i r heq
    rw [List.cons.injEq] at heq
    exact absurd heq.2 (fun h2 => h r heq.1 h2)
  · rename_i a d r hg heq
    rw [List.cons.injEq] at heq
    rw [← heq.1, ← heq.2]
  · rename_i heq
    exact absurd heq (List.cons_ne_nil _ _)

theorem mem_removeEllipsis {c : Char} : ∀ {s : List Char}, c ∈ removeEllipsis s → c ∈ s := by
  intro s
  induction s using removeEllipsis.induct with
  | case1 rest ih =>
    intro h
    rw [removeEllipsis_eq_dots] at h
    exact List.mem_cons_of_mem _ (List.mem_cons_of_mem _ (List.mem_cons_of_mem _ (ih h)))
  | case2 d rest hne ih =>
    intro h
    rw [removeEllipsis_eq_cons d rest hne] at h
    rcases List.mem_cons.1 h with h1 | h2
    · exact h1 ▸ List.mem_cons_self _ _
    · exact List.mem_cons_of_mem _ (ih h2)
  | case3 =>
    intro h
    exact h

theorem noEllipsis_dots (s : List Char) :
    noEllipsis ('.' :: '.' :: '.' :: s) = false := rfl

theorem noEllipsis_cons (c : Char) (rest : List Char)
    (h : ∀ r, c = '.' → rest = '.' :: '.' :: r → False) :
    noEllipsis (c :: rest) = noEllipsis rest := by
  rw [noEllipsis.eq_def]
  split
  · rename_i r heq
    rw [List.cons.injEq] at heq
    exact absurd heq.2 (fun h2 => h r heq.1 h2)
  · rename_i a d r hg heq
    rw [List.cons.injEq] at heq
    rw [heq.2]
  · rename_i heq
    exact absurd heq (List.cons_ne_nil _ _)

theorem noEllipsis_of_cons {c : Char} {rest : List Char}
    (h : noEllipsis (c :: rest) = true) : noEllipsis rest = true := by
  by_cases hd : ∃ r, c = '.' ∧ rest = '.' :: '.' :: r
  · obtain ⟨r, hc, hr⟩ := hd
    subst hc
    subst hr
    rw [noEllipsis_dots] at h
    exact absurd h (by decide)
  · rw [noEllipsis_cons c rest (fun r hc hr => hd ⟨r, hc, hr⟩)] at h
    exact h

theorem removeEllipsis_head_dot : ∀ {s : List Char},
    (removeEllipsis s).head? = some '.' → s.head? = some '.' := by
  intro s
  induction s using removeEllipsis.induct with
  | case1 rest ih =>
    intro _
    rfl
  | case2 d rest hne ih =>
    intro h
    rw [removeEllipsis_eq_cons d rest hne] at h
    simpa using h
  | case3 =>
    intro h
    simp [removeEllipsis] at h

theorem noEllipsis_removeEllipsis : ∀ (s : List Char), noEllipsis (removeEllipsis s) = true := by
  intro s
  induction s using removeEllipsis.induct with
  | case1 rest ih =>
    rw [removeEllipsis_eq_dots]
    exact ih
  | case2 d rest hne ih =>
    rw [removeEllipsis_eq_cons d rest hne]
    have H : ∀ r, d = '.' → removeEllipsis rest = '.' :: '.' :: r → False := by
      intro r hd hrr
      subst hd
      rcases hrest : rest with _ | ⟨e, rest2⟩
      · rw [hrest] at hrr
        simp [removeEllipsis] at hrr
      · subst hrest
        by_cases he : e = '.'
        · subst he
          have hr2 : ∀ f rest3, rest2 = f :: rest3 → f ≠ '.' := by
            intro f rest3 h2 hf
            exact hne rest3 rfl (by rw [h2, hf])
          have hstep : removeEllipsis ('.' :: rest2) = '.' :: removeEllipsis rest2 := by
            apply removeEllipsis_eq_cons
            intro r2 _ h2
            exact hr2 '.' ('.' :: r2) h2 rfl
          rw [hstep, List.cons.injEq] at hrr
          have hhead : (removeEllipsis rest2).head? = some '.' := by
            rw [hrr.2]
            rfl
          have hh2 := removeEllipsis_head_dot hhead
          rcases rest2 with _ | ⟨f, rest3⟩
          · simp at hh2
          · simp at hh2
            exact hr2 f rest3 rfl hh2
        · have hstep : removeEllipsis (e :: rest2) = e :: removeEllipsis rest2 := by
            apply removeEllipsis_eq_cons
            intro r2 he2 _
            exact he he2
          rw [hstep, List.cons.injEq] at hrr
          exact he hrr.1
    rw [noEllipsis_cons d _ H]
    exact ih
  | case3 => rfl

theorem removeEllipsis_eq_self : ∀ {s : List Char},
    noEllipsis s = true → removeEllipsis s = s := by
  intro s
  induction s using removeEllipsis.induct with
  | case1 rest ih =>
    intro h
    rw [noEllipsis_dots] at h
    exact absurd h (by decide)
  | case2 d rest hne ih =>
    intro h
    rw [removeEllipsis_eq_cons d rest hne, ih (noEllipsis_of_cons h)]
  | case3 =>
    intro _
    rfl

/-!
## `noEllipsis`: closure under the operations of the pipeline
-/

theorem noEllipsis_append_left {a b : List Char}
    (h : noEllipsis (a ++ b) = true) : noEllipsis b = true := by
  induction a with
  | nil => exact h
  | cons c a ih => exact ih (noEllipsis_of_cons h)

theorem noEllipsis_append_right (b : List Char) : ∀ (a : List Char),
    noEllipsis (a ++ b) = true → noEllipsis a = true := by
  intro a
  induction a using noEllipsis.induct with
  | case1 rest =>
    intro h
    rw [show ('.' :: '.' :: '.' :: rest) ++ b = '.' :: '.' :: '.' :: (rest ++ b) from rfl,
      noEllipsis_dots] at h
    exact absurd h (by decide)
  | case2 c rest hne ih =>
    intro h
    rw [noEllipsis_cons c rest hne]
    exact ih (noEllipsis_of_cons h)
  | case3 =>
    intro _
    rfl

theorem noEllipsis_of_middle (u t v : List Char)
    (h : noEllipsis (u ++ t ++ v) = true) : noEllipsis t = true := by
  rw [List.append_assoc] at h
  exact noEllipsis_append_right v t (noEllipsis_append_left h)

theorem noEllipsis_append_of_head (b : List Char) (hb1 : noEllipsis b = true)
    (hb2 : b.head? ≠ some '.') : ∀ (a : List Char),
    noEllipsis a = true → noEllipsis (a ++ b) = true := by
  intro a
  induction a using noEllipsis.induct with
  | case1 rest =>
    intro h
    rw [noEllipsis_dots] at h
    exact absurd h (by decide)
  | case2 c rest hne ih =>
    intro h
    rw [show (c :: rest) ++ b = c :: (rest ++ b) from rfl]
    have H : ∀ r, c = '.' → rest ++ b = '.' :: '.' :: r → False := by
      intro r hc hr
      rcases rest with _ | ⟨e, rest2⟩
      · rw [List.nil_append] at hr
        exact hb2 (by rw [hr]; rfl)
      · rcases rest2 with _ | ⟨f, rest3⟩
        · rw [show [e] ++ b = e :: b from rfl, List.cons.injEq] at hr
          exact hb2 (by rw [hr.2]; rfl)
        · rw [show (e :: f :: rest3) ++ b = e :: f :: (rest3 ++ b) from rfl,
            List.cons.injEq, List.cons.injEq] at hr
          exact hne rest3 hc (by rw [hr.1, hr.2.1])
    rw [noEllipsis_cons c _ H]
    exact ih (noEllipsis_of_cons h)
  | case3 =>
    intro _
    exact hb1

theorem noEllipsis_append_of_last (b : List Char) (hb1 : noEllipsis b = true) :
    ∀ (a : List Char), noEllipsis a = true → a.getLast? ≠ some '.' →
    noEllipsis (a ++ b) = true := by
  intro a
  induction a using noEllipsis.induct with
  | case1 rest =>
    intro h _
    rw [noEllipsis_dots] at h
    exact absurd h (by decide)
  | case2 c rest hne ih =>
    intro h hlast
    rw [show (c :: rest) ++ b = c :: (rest ++ b) from rfl]
    have H : ∀ r, c = '.' → rest ++ b = '.' :: '.' :: r → False := by
      intro r hc hr
      rcases rest with _ | ⟨e, rest2⟩
      · exact hlast (by rw [hc]; rfl)
      · rcases rest2 with _ | ⟨f, rest3⟩
        · rw [show [e] ++ b = e :: b from rfl, List.cons.injEq] at hr
          exact hlast (by rw [List.getLast?_cons_cons, hr.1]; rfl)
        · rw [show (e :: f :: rest3) ++ b = e :: f :: (rest3 ++ b) from rfl,
            List.cons.injEq, List.cons.injEq] at hr
          exact hne rest3 hc (by rw [hr.1, hr.2.1])
    rw [noEllipsis_cons c _ H]
    rcases rest with _ | ⟨e, rest2⟩
    · exact hb1
    · refine ih (noEllipsis_of_cons h) ?_
      rw [List.getLast?_cons_cons] at hlast
      exact hlast
  | case3 =>
    intro _ _
    exact hb1

theorem noEllipsis_joinSpace : ∀ (L : List (List Char)),
    (∀ p ∈ L, noEllipsis p = true) → noEllipsis (joinSpace L) = true := by
  intro L
  induction L with
  | nil =>
    intro _
    rfl
  | cons w ws ih =>
    intro h
    rcases ws with _ | ⟨w2, ws2⟩
    · exact h w (List.mem_cons_self _ _)
    · rw [show joinSpace (w :: w2 :: ws2) = w ++ ' ' :: joinSpace (w2 :: ws2) from rfl]
      have hjoin : noEllipsis (joinSpace (w2 :: ws2)) = true :=
        ih (fun p hp => h p (List.mem_cons_of_mem _ hp))
      have hcons : noEllipsis (' ' :: joinSpace (w2 :: ws2)) = true := by
        rw [noEllipsis_cons ' ' _ (fun r hc _ => by exact absurd hc (by decide))]
        exact hjoin
      exact noEllipsis_append_of_head _ hcons (by simp) w (h w (List.mem_cons_self _ _))

theorem noEllipsis_eq_not_containsSub : ∀ (s : List Char),
    noEllipsis s = !(containsSub ['.', '.', '.'] s) := by
  intro s
  induction s using noEllipsis.induct with
  | case1 rest =>
    rw [noEllipsis_dots]
    simp [containsSub, List.isPrefixOf]
  | case2 c rest hne ih =>
    rw [noEllipsis_cons c rest hne, ih]
    have hp : List.isPrefixOf ['.', '.', '.'] (c :: rest) = false := by
      rcases rest with _ | ⟨e, rest2⟩
      · simp [List.isPrefixOf]
      · rcases rest2 with _ | ⟨f, rest3⟩
        · simp [List.isPrefixOf]
        · by_cases hc : c = '.'
          · by_cases hee : e = '.'
            · by_cases hf : f = '.'
              · exact absurd (by rw [hee, hf] : e :: f :: rest3 = '.' :: '.' :: rest3)
                  (fun hh => hne rest3 hc hh)
              · simp [List.isPrefixOf]
                intro _ _ hq3
                exact hf hq3.symm
            · simp [List.isPrefixOf]
              intro _ hq2 _
              exact hee hq2.symm
          · simp [List.isPrefixOf]
            intro hq1 _ _
            exact hc hq1.symm
    rw [show containsSub ['.', '.', '.'] (c :: rest)
        = (List.isPrefixOf ['.', '.', '.'] (c :: rest) || containsSub ['.', '.', '.'] rest)
      from rfl, hp]
    simp
  | case3 => rfl

/-!
## The sentence splitter: scan lemmas

`stateAfter b p` is the `prevPunct` state after scanning `p` from
state `b`; `noSplit b p` says the scan of `p` from state `b` in normal
mode crosses no sentence boundary.
-/

def stateAfter : Bool → List Char → Bool
  | b, [] => b
  | _, c :: rest => stateAfter (isPunct c) rest

def noSplit : Bool → List Char → Bool
  | _, [] => true
  | b, c :: rest => !(isWS c && b) && noSplit (isPunct c) rest

theorem splitSentCore_nil (sk b : Bool) : splitSentCore sk b [] = ([], []) := by
  cases sk <;> rfl

theorem splitSentCore_skip_cons (b : Bool) (c : Char) (rest : List Char) :
    splitSentCore true b (c :: rest) =
      if isWS c then splitSentCore true false rest
      else (c :: (splitSentCore false (isPunct c) rest).1,
            (splitSentCore false (isPunct c) rest).2) := rfl

theorem splitSentCore_false_cons (b : Bool) (c : Char) (rest : List Char) :
    splitSentCore false b (c :: rest) =
      if isWS c && b then
        ([], (splitSentCore true false rest).1 :: (splitSentCore true false rest).2)
      else
        (c :: (splitSentCore false (isPunct c) rest).1,
         (splitSentCore false (isPunct c) rest).2) := rfl

theorem splitSentCore_skip_nonWS (b : Bool) (c : Char) (rest : List Char)
    (h : isWS c = false) :
    splitSentCore true b (c :: rest) = splitSentCore false b (c :: rest) := by
  rw [splitSentCore_skip_cons, splitSentCore_false_cons, h]
  simp

theorem splitSentCore_append (p : List Char) : ∀ (b : Bool) (rest : List Char),
    noSplit b p = true →
    splitSentCore false b (p ++ rest) =
      (p ++ (splitSentCore false (stateAfter b p) rest).1,
       (splitSentCore false (stateAfter b p) rest).2) := by
  induction p with
  | nil =>
    intro b rest _
    rw [List.nil_append]
    rfl
  | cons c p ih =>
    intro b rest h
    simp only [noSplit, Bool.and_eq_true, Bool.not_eq_eq_eq_not, Bool.not_true] at h
    rw [show (c :: p) ++ rest = c :: (p ++ rest) from rfl, splitSentCore_false_cons, h.1]
    simp only [Bool.false_eq_true, if_false, stateAfter]
    rw [ih (isPunct c) rest h.2]
    simp

theorem endsWithPunct_cons_cons (c d : Char) (r : List Char) :
    endsWithPunct (c :: d :: r) = endsWithPunct (d :: r) := by
  unfold endsWithPunct
  rw [List.getLast?_cons_cons]

theorem stateAfter_of_endsPunct : ∀ (p : List Char) (b : Bool),
    endsWithPunct p = true → stateAfter b p = true := by
  intro p
  induction p with
  | nil =>
    intro b h
    exact absurd h (by simp [endsWithPunct])
  | cons c p ih =>
    intro b h
    rcases p with _ | ⟨d, p2⟩
    · simp only [stateAfter]
      simpa [endsWithPunct] using h
    · simp only [stateAfter]
      exact ih (isPunct c) (by rwa [endsWithPunct_cons_cons] at h)

theorem splitSentCore_noSplit : ∀ (s : List Char) (sk b : Bool),
    (sk = true → noSplit false (splitSentCore sk b s).1 = true) ∧
    (sk = false → noSplit b (splitSentCore sk b s).1 = true) ∧
    (∀ p ∈ (splitSentCore sk b s).2, noSplit false p = true) := by
  intro s
  induction s with
  | nil =>
    intro sk b
    rw [splitSentCore_nil]
    exact ⟨fun _ => rfl, fun _ => rfl, by simp⟩
  | cons c rest ih =>
    intro sk b
    cases sk
    · rw [splitSentCore_false_cons]
      by_cases hg : (isWS c && b) = true
      · rw [hg]
        simp only [if_true]
        refine ⟨fun h => by exact absurd h (by decide), fun _ => rfl, ?_⟩
        intro p hp
        rcases List.mem_cons.1 hp with h1 | h2
        · exact h1 ▸ (ih true false).1 rfl
        · exact (ih true false).2.2 p h2
      · rw [Bool.not_eq_true] at hg
        rw [hg]
        simp only [Bool.false_eq_true, if_false]
        refine ⟨fun h => by exact absurd h (by decide), fun _ => ?_, ?_⟩
        · simp only [noSplit, hg, Bool.not_false, Bool.true_and]
          exact (ih false (isPunct c)).2.1 rfl
        · exact (ih false (isPunct c)).2.2
    · rw [splitSentCore_skip_cons]
      by_cases hw : isWS c = true
      · rw [hw]
        simp only [if_true]
        exact ⟨fun _ => (ih true false).1 rfl, fun h => by exact absurd h (by decide),
          (ih true false).2.2⟩
      · rw [Bool.not_eq_true] at hw
        rw [hw]
        simp only [Bool.false_eq_true, if_false]
        refine ⟨fun _ => ?_, fun h => by exact absurd h (by decide),
          (ih false (isPunct c)).2.2⟩
        simp only [noSplit, hw, Bool.false_and, Bool.not_false, Bool.true_and]
        exact (ih false (isPunct c)).2.1 rfl

theorem splitSentCore_heads : ∀ (s : List Char) (sk b : Bool),
    (sk = true → ∀ c r2, (splitSentCore sk b s).1 = c :: r2 → isWS c = false) ∧
    (∀ p ∈ (splitSentCore sk b s).2, ∀ c r2, p = c :: r2 → isWS c = false) := by
  intro s
  induction s with
  | nil =>
    intro sk b
    rw [splitSentCore_nil]
    exact ⟨fun _ c r2 h => absurd h (by simp), by simp⟩
  | cons c rest ih =>
    intro sk b
    cases sk
    · rw [splitSentCore_false_cons]
      by_cases hg : (isWS c && b) = true
      · rw [hg]
        simp only [if_true]
        refine ⟨fun h => by exact absurd h (by decide), ?_⟩
        intro p hp
        rcases List.mem_cons.1 hp with h1 | h2
        · exact h1 ▸ (ih true false).1 rfl
        · exact (ih true false).2 p h2
      · rw [Bool.not_eq_true] at hg
        rw [hg]
        simp only [Bool.false_eq_true, if_false]
        exact ⟨fun h => by exact absurd h (by decide), (ih false (isPunct c)).2⟩
    · rw [splitSentCore_skip_cons]
      by_cases hw : isWS c = true
      · rw [hw]
        simp only [if_true]
        exact ⟨fun _ => (ih true false).1 rfl, (ih true false).2⟩
      · rw [Bool.not_eq_true] at hw
        rw [hw]
        simp only [Bool.false_eq_true, if_false]
        refine ⟨fun _ d r2 hdr => ?_, (ih false (isPunct c)).2⟩
        rw [List.cons.injEq] at hdr
        rw [← hdr.1]
        exact hw

theorem splitSentCore_ends : ∀ (s : List Char) (sk b : Bool),
    ((splitSentCore sk b s).2 ≠ [] → (splitSentCore sk b s).1 = [] → sk = false ∧ b = true) ∧
    ((splitSentCore sk b s).2 ≠ [] → (splitSentCore sk b s).1 ≠ [] →
        endsWithPunct (splitSentCore sk b s).1 = true) ∧
    (∀ p ∈ (splitSentCore sk b s).2.dropLast, p ≠ [] ∧ endsWithPunct p = true) := by
  intro s
  induction s with
  | nil =>
    intro sk b
    rw [splitSentCore_nil]
    exact ⟨fun h => absurd rfl h, fun h => absurd rfl h, by simp⟩
  | cons c rest ih =>
    intro sk b
    have pieces_dropLast : ∀ p ∈ ((splitSentCore true false rest).1 ::
        (splitSentCore true false rest).2).dropLast, p ≠ [] ∧ endsWithPunct p = true := by
      intro p hp
      rcases hqs : (splitSentCore true false rest).2 with _ | ⟨q2, qs2⟩
      · rw [hqs] at hp
        simp at hp
      · rw [hqs] at hp
        rw [List.dropLast_cons_of_ne_nil (by simp)] at hp
        rcases List.mem_cons.1 hp with h1 | h2
        · have hne : (splitSentCore true false rest).2 ≠ [] := by
            rw [hqs]
            simp
          subst h1
          constructor
          · intro h0
            have habs := ((ih true false).1 hne h0).1
            exact absurd habs (by decide)
          · have hq_ne : (splitSentCore true false rest).1 ≠ [] := by
              intro h0
              have habs := ((ih true false).1 hne h0).1
              exact absurd habs (by decide)
            exact (ih true false).2.1 hne hq_ne
        · have := (ih true false).2.2 p
          rw [hqs] at this
          exact this h2
    cases sk
    · rw [splitSentCore_false_cons]
      by_cases hg : (isWS c && b) = true
      · have hg2 : isWS c = true ∧ b = true := by
          simpa [Bool.and_eq_true] using hg
        rw [hg]
        simp only [if_true]
        exact ⟨fun _ _ => ⟨by trivial, hg2.2⟩,
          fun _ h1 => absurd rfl h1, pieces_dropLast⟩
      · rw [Bool.not_eq_true] at hg
        rw [hg]
        simp only [Bool.false_eq_true, if_false]
        refine ⟨fun _ h0 => absurd h0 (List.cons_ne_nil _ _), fun hne _ => ?_,
          (ih false (isPunct c)).2.2⟩
        rcases hq : (splitSentCore false (isPunct c) rest).1 with _ | ⟨d, r2⟩
        · have hpc := ((ih false (isPunct c)).1 hne hq).2
          simpa [endsWithPunct] using hpc
        · rw [endsWithPunct_cons_cons]
          have := (ih false (isPunct c)).2.1 hne (by rw [hq]; simp)
          rwa [hq] at this
    · rw [splitSentCore_skip_cons]
      by_cases hw : isWS c = true
      · rw [hw]
        simp only [if_true]
        refine ⟨fun hne h0 => ?_, (ih true false).2.1, (ih true false).2.2⟩
        have habs := ((ih true false).1 hne h0).1
        exact absurd habs (by decide)
      · rw [Bool.not_eq_true] at hw
        rw [hw]
        simp only [Bool.false_eq_true, if_false]
        refine ⟨fun _ h0 => absurd h0 (List.cons_ne_nil _ _), fun hne _ => ?_,
          (ih false (isPunct c)).2.2⟩
        rcases hq : (splitSentCore false (isPunct c) rest).1 with _ | ⟨d, r2⟩
        · have hpc := ((ih false (isPunct c)).1 hne hq).2
          simpa [endsWithPunct] using hpc
        · rw [endsWithPunct_cons_cons]
          have := (ih false (isPunct c)).2.1 hne (by rw [hq]; simp)
          rwa [hq] at this

theorem splitSentCore_middle : ∀ (s : List Char) (sk b : Bool),
    (sk = false → ∃ v, s = (splitSentCore sk b s).1 ++ v) ∧
    (sk = true → ∃ u v, s = u ++ (splitSentCore sk b s).1 ++ v) ∧
    (∀ p ∈ (splitSentCore sk b s).2, ∃ u v, s = u ++ p ++ v) := by
  intro s
  induction s with
  | nil =>
    intro sk b
    rw [splitSentCore_nil]
    exact ⟨fun _ => ⟨[], rfl⟩, fun _ => ⟨[], [], rfl⟩, by simp⟩
  | cons c rest ih =>
    intro sk b
    cases sk
    · rw [splitSentCore_false_cons]
      by_cases hg : (isWS c && b) = true
      · rw [hg]
        simp only [if_true]
        refine ⟨fun _ => ⟨c :: rest, rfl⟩, fun h => by exact absurd h (by decide), ?_⟩
        intro p hp
        rcases List.mem_cons.1 hp with h1 | h2
        · obtain ⟨u, v, huv⟩ := (ih true false).2.1 rfl
          exact ⟨c :: u, v, by rw [← h1] at huv; rw [show c :: rest = c :: (u ++ p ++ v) from by rw [← huv]]; simp⟩
        · obtain ⟨u, v, huv⟩ := (ih true false).2.2 p h2
          exact ⟨c :: u, v, by rw [huv]; simp⟩
      · rw [Bool.not_eq_true] at hg
        rw [hg]
        simp only [Bool.false_eq_true, if_false]
        refine ⟨fun _ => ?_, fun h => by exact absurd h (by decide), ?_⟩
        · obtain ⟨v, hv⟩ := (ih false (isPunct c)).1 rfl
          exact ⟨v, by rw [show (c :: (splitSentCore false (isPunct c) rest).1) ++ v
            = c :: ((splitSentCore false (isPunct c) rest).1 ++ v) from rfl, ← hv]⟩
        · intro p hp
          obtain ⟨u, v, huv⟩ := (ih false (isPunct c)).2.2 p hp
          exact ⟨c :: u, v, by rw [huv]; simp⟩
    · rw [splitSentCore_skip_cons]
      by_cases hw : isWS c = true
      · rw [hw]
        simp only [if_true]
        refine ⟨fun h => by exact absurd h (by decide), fun _ => ?_, ?_⟩
        · obtain ⟨u, v, huv⟩ := (ih true false).2.1 rfl
          exact ⟨c :: u, v, by
            rw [show (c :: u) ++ (splitSentCore true false rest).1 ++ v
              = c :: (u ++ (splitSentCore true false rest).1 ++ v) from by simp, ← huv]⟩
        · intro p hp
          obtain ⟨u, v, huv⟩ := (ih true false).2.2 p hp
          exact ⟨c :: u, v, by rw [huv]; simp⟩
      · rw [Bool.not_eq_true] at hw
        rw [hw]
        simp only [Bool.false_eq_true, if_false]
        refine ⟨fun h => by exact absurd h (by decide), fun _ => ?_, ?_⟩
        · obtain ⟨v, hv⟩ := (ih false (isPunct c)).1 rfl
          exact ⟨[], v, by rw [List.nil_append, show (c :: (splitSentCore false (isPunct c) rest).1) ++ v
            = c :: ((splitSentCore false (isPunct c) rest).1 ++ v) from rfl, ← hv]⟩
        · intro p hp
          obtain ⟨u, v, huv⟩ := (ih false (isPunct c)).2.2 p hp
          exact ⟨c :: u, v, by rw [huv]; simp⟩

theorem splitSentCore_concat_len : ∀ (s : List Char) (sk b : Bool) (c : Char),
    isWS c = false →
    (splitSentCore sk b (s ++ [c])).2.length = (splitSentCore sk b s).2.length := by
  intro s
  induction s with
  | nil =>
    intro sk b c hc
    rw [List.nil_append, splitSentCore_nil]
    cases sk
    · rw [splitSentCore_false_cons, hc]
      simp [splitSentCore_nil]
    · rw [splitSentCore_skip_cons, hc]
      simp [splitSentCore_nil]
  | cons d rest ih =>
    intro sk b c hc
    rw [show (d :: rest) ++ [c] = d :: (rest ++ [c]) from rfl]
    cases sk
    · rw [splitSentCore_false_cons, splitSentCore_false_cons]
      by_cases hg : (isWS d && b) = true
      · rw [hg]
        simp only [if_true]
        simp [ih true false c hc]
      · rw [Bool.not_eq_true] at hg
        rw [hg]
        simp only [Bool.false_eq_true, if_false]
        simp [ih false (isPunct d) c hc]
    · rw [splitSentCore_skip_cons, splitSentCore_skip_cons]
      by_cases hw : isWS d = true
      · rw [hw]
        simp only [if_true]
        exact ih true false c hc
      · rw [Bool.not_eq_true] at hw
        rw [hw]
        simp only [Bool.false_eq_true, if_false]
        simp [ih false (isPunct d) c hc]

/-- Splitting the space-rejoined first three sentences yields exactly
those three sentences again. -/
theorem splitSentences_three (p1 p2 p3 : List Char)
    (h1s : noSplit false p1 = true) (h1e : endsWithPunct p1 = true)
    (h2s : noSplit false p2 = true) (h2n : p2 ≠ []) (h2e : endsWithPunct p2 = true)
    (h2h : ∀ c r, p2 = c :: r → isWS c = false)
    (h3s : noSplit false p3 = true) (h3n : p3 ≠ [])
    (h3h : ∀ c r, p3 = c :: r → isWS c = false) :
    splitSentences (p1 ++ (' ' :: (p2 ++ (' ' :: p3)))) = [p1, p2, p3] := by
  have e3 : splitSentCore false false p3 = (p3, []) := by
    have h := splitSentCore_append p3 false [] h3s
    rw [List.append_nil, splitSentCore_nil] at h
    rw [h]
    simp
  have e3sk : splitSentCore true false p3 = (p3, []) := by
    rcases hp3 : p3 with _ | ⟨c3, r3⟩
    · exact absurd hp3 h3n
    · rw [splitSentCore_skip_nonWS false c3 r3 (h3h c3 r3 hp3), ← hp3]
      exact e3
  have e2b : splitSentCore false true (' ' :: p3) = ([], [p3]) := by
    rw [splitSentCore_false_cons, if_pos (show (isWS ' ' && true) = true from by decide),
      e3sk]
  have e2 : splitSentCore false false (p2 ++ ' ' :: p3) = (p2, [p3]) := by
    have h := splitSentCore_append p2 false (' ' :: p3) h2s
    rw [stateAfter_of_endsPunct p2 false h2e, e2b] at h
    rw [h]
    simp
  have e2sk : splitSentCore true false (p2 ++ ' ' :: p3) = (p2, [p3]) := by
    rcases hp2 : p2 with _ | ⟨c2, r2⟩
    · exact absurd hp2 h2n
    · rw [List.cons_append, splitSentCore_skip_nonWS false c2 _ (h2h c2 r2 hp2),
        ← List.cons_append, ← hp2]
      exact e2
  have e1b : splitSentCore false true (' ' :: (p2 ++ ' ' :: p3)) = ([], [p2, p3]) := by
    rw [splitSentCore_false_cons, if_pos (show (isWS ' ' && true) = true from by decide),
      e2sk]
  have e1 : splitSentCore false false (p1 ++ (' ' :: (p2 ++ (' ' :: p3))))
      = (p1, [p2, p3]) := by
    have h := splitSentCore_append p1 false (' ' :: (p2 ++ (' ' :: p3))) h1s
    rw [stateAfter_of_endsPunct p1 false h1e, e1b] at h
    rw [h]
    simp
  unfold splitSentences
  rw [e1]

theorem splitSentences_eq (s : List Char) :
    splitSentences s = (splitSentCore false false s).1 :: (splitSentCore false false s).2 := rfl

theorem endsWithPunct_append (a b : List Char) (hb : b ≠ []) :
    endsWithPunct (a ++ b) = endsWithPunct b := by
  unfold endsWithPunct
  rw [List.getLast?_append]
  rcases hx : b.getLast? with _ | c
  · rcases b with _ | ⟨d, r⟩
    · exact absurd rfl hb
    · rw [List.getLast?_eq_none_iff] at hx
      exact absurd hx (List.cons_ne_nil _ _)
  · simp [Option.or]

theorem addFinalDot_of_endsPunct (s : List Char) (h : endsWithPunct s = true) :
    addFinalDot s = s := by
  simp [addFinalDot, h]

theorem endsWithPunct_join3 (q p2 p3 : List Char) (h3 : p3 ≠ [])
    (he : endsWithPunct p3 = true) :
    endsWithPunct (q ++ (' ' :: (p2 ++ (' ' :: p3)))) = true := by
  rw [endsWithPunct_append _ _ (List.cons_ne_nil _ _)]
  have h1 : endsWithPunct (' ' :: (p2 ++ (' ' :: p3))) = endsWithPunct (p2 ++ (' ' :: p3)) := by
    rcases hpp : p2 ++ (' ' :: p3) with _ | ⟨d, r⟩
    · exact absurd hpp (by simp)
    · exact endsWithPunct_cons_cons ' ' d r
  rw [h1, endsWithPunct_append _ _ (List.cons_ne_nil _ _)]
  rcases hp3 : p3 with _ | ⟨c3, r3⟩
  · exact absurd hp3 h3
  · rw [endsWithPunct_cons_cons]
    rw [hp3] at he
    exact he

/-- C1, amended: if the rewrite steps followed by the sentence split
yield more than 3 sentences, the output of `clean_response` contains
exactly 3 sentences. -/
theorem clean_response_sentence_cap_amended (x : List Char)
    (h : 3 < numSentences (preSplit x)) :
    numSentences (clean_response x) = 3 := by
  have hq := splitSentCore_noSplit (preSplit x) false false
  have hh := splitSentCore_heads (preSplit x) false false
  have he := splitSentCore_ends (preSplit x) false false
  unfold numSentences at h
  rw [splitSentences_eq] at h
  rcases hqs : (splitSentCore false false (preSplit x)).2 with _ | ⟨p2, qs1⟩
  · rw [hqs] at h
    simp at h
  rcases hqs1 : qs1 with _ | ⟨p3, qs2⟩
  · rw [hqs, hqs1] at h
    simp at h
  rcases hqs2 : qs2 with _ | ⟨p4, qs3⟩
  · rw [hqs, hqs1, hqs2] at h
    simp at h
  subst hqs1
  subst hqs2
  have hqs_ne : (splitSentCore false false (preSplit x)).2 ≠ [] := by
    rw [hqs]
    simp
  have hq_ne : (splitSentCore false false (preSplit x)).1 ≠ [] := by
    intro h0
    exact absurd ((he.1 hqs_ne h0).2) (by decide)
  have hq_end : endsWithPunct (splitSentCore false false (preSplit x)).1 = true :=
    he.2.1 hqs_ne hq_ne
  have hq_ns : noSplit false (splitSentCore false false (preSplit x)).1 = true :=
    hq.2.1 rfl
  have hp2_mem : p2 ∈ (splitSentCore false false (preSplit x)).2 := by
    rw [hqs]
    exact List.mem_cons_self _ _
  have hp3_mem : p3 ∈ (splitSentCore false false (preSplit x)).2 := by
    rw [hqs]
    exact List.mem_cons_of_mem _ (List.mem_cons_self _ _)
  have hp2_dl : p2 ∈ (splitSentCore false false (preSplit x)).2.dropLast := by
    rw [hqs, List.dropLast_cons_of_ne_nil (by simp)]
    exact List.mem_cons_self _ _
  have hp3_dl : p3 ∈ (splitSentCore false false (preSplit x)).2.dropLast := by
    rw [hqs, List.dropLast_cons_of_ne_nil (by simp),
      List.dropLast_cons_of_ne_nil (by simp)]
    exact List.mem_cons_of_mem _ (List.mem_cons_self _ _)
  have hp2_props := he.2.2 p2 hp2_dl
  have hp3_props := he.2.2 p3 hp3_dl
  have hp2_ns : noSplit false p2 = true := hq.2.2 p2 hp2_mem
  have hp3_ns : noSplit false p3 = true := hq.2.2 p3 hp3_mem
  have hp2_head : ∀ c r, p2 = c :: r → isWS c = false := hh.2 p2 hp2_mem
  have hp3_head : ∀ c r, p3 = c :: r → isWS c = false := hh.2 p3 hp3_mem
  have htrunc : truncateSentences (preSplit x) =
      (splitSentCore false false (preSplit x)).1 ++ (' ' :: (p2 ++ (' ' :: p3))) := by
    unfold truncateSentences
    rw [splitSentences_eq, hqs]
    rw [if_pos (by simp)]
    rfl
  have hsplit3 := splitSentences_three (splitSentCore false false (preSplit x)).1 p2 p3
    hq_ns hq_end hp2_ns hp2_props.1 hp2_props.2 hp2_head hp3_ns hp3_props.1 hp3_head
  have hend := endsWithPunct_join3 (splitSentCore false false (preSplit x)).1 p2 p3
    hp3_props.1 hp3_props.2
  unfold clean_response
  rw [htrunc, addFinalDot_of_endsPunct _ hend]
  unfold numSentences
  rw [hsplit3]
  rfl

/-- C1, amended, witness: the input `a. b. c. d.` has 4 sentences at
the split step and a 3-sentence output. -/
theorem clean_response_sentence_cap_amended_witness :
    3 < numSentences (preSplit ( "a. b. c. d.".data)) ∧
    numSentences (clean_response ( "a. b. c. d.".data)) = 3 :=
  ⟨by decide, clean_response_sentence_cap_amended _ (by decide)⟩

/-!
## Membership and infix decompositions for the whitespace collapse
-/

theorem wordsCore_cons (c : Char) (rest : List Char) :
    wordsCore (c :: rest) =
      if isWS c then
        ([], if (wordsCore rest).1.isEmpty then (wordsCore rest).2
             else (wordsCore rest).1 :: (wordsCore rest).2)
      else (c :: (wordsCore rest).1, (wordsCore rest).2) := rfl

theorem words_eq (s : List Char) :
    words s = if (wordsCore s).1.isEmpty then (wordsCore s).2
              else (wordsCore s).1 :: (wordsCore s).2 := rfl

theorem wordsCore_middle : ∀ (s : List Char),
    (∃ v, s = (wordsCore s).1 ++ v) ∧
    (∀ w ∈ (wordsCore s).2, ∃ u v, s = u ++ w ++ v) := by
  intro s
  induction s with
  | nil =>
    exact ⟨⟨[], rfl⟩, by simp [wordsCore]⟩
  | cons c rest ih =>
    rw [wordsCore_cons]
    by_cases hw : isWS c = true
    · rw [hw]
      simp only [if_true]
      refine ⟨⟨c :: rest, rfl⟩, ?_⟩
      intro w hwmem
      by_cases h1 : (wordsCore rest).1.isEmpty = true
      · rw [h1] at hwmem
        simp only [if_true] at hwmem
        obtain ⟨u, v, huv⟩ := ih.2 w hwmem
        exact ⟨c :: u, v, by rw [huv]; simp⟩
      · rw [Bool.not_eq_true] at h1
        rw [h1] at hwmem
        simp only [Bool.false_eq_true, if_false] at hwmem
        rcases List.mem_cons.1 hwmem with h2 | h2
        · obtain ⟨v, hv⟩ := ih.1
          refine ⟨[c], v, ?_⟩
          rw [show [c] ++ w ++ v = c :: (w ++ v) from by simp, h2, ← hv]
        · obtain ⟨u, v, huv⟩ := ih.2 w h2
          exact ⟨c :: u, v, by rw [huv]; simp⟩
    · rw [Bool.not_eq_true] at hw
      rw [hw]
      simp only [Bool.false_eq_true, if_false]
      constructor
      · obtain ⟨v, hv⟩ := ih.1
        exact ⟨v, by rw [show (c :: (wordsCore rest).1) ++ v
          = c :: ((wordsCore rest).1 ++ v) from rfl, ← hv]⟩
      · intro w hwmem
        obtain ⟨u, v, huv⟩ := ih.2 w hwmem
        exact ⟨c :: u, v, by rw [huv]; simp⟩

theorem words_middle (s : List Char) : ∀ w ∈ words s, ∃ u v, s = u ++ w ++ v := by
  intro w hw
  rw [words_eq] at hw
  by_cases h1 : (wordsCore s).1.isEmpty = true
  · rw [h1] at hw
    simp only [if_true] at hw
    exact (wordsCore_middle s).2 w hw
  · rw [Bool.not_eq_true] at h1
    rw [h1] at hw
    simp only [Bool.false_eq_true, if_false] at hw
    rcases List.mem_cons.1 hw with h2 | h2
    · obtain ⟨v, hv⟩ := (wordsCore_middle s).1
      exact ⟨[], v, by rw [List.nil_append, h2, ← hv]⟩
    · exact (wordsCore_middle s).2 w h2

theorem joinSpace_cons_cons (w w2 : List Char) (ws : List (List Char)) :
    joinSpace (w :: w2 :: ws) = w ++ ' ' :: joinSpace (w2 :: ws) := rfl

theorem mem_joinSpace {c : Char} : ∀ (L : List (List Char)),
    c ∈ joinSpace L → (∃ p ∈ L, c ∈ p) ∨ c = ' ' := by
  intro L
  induction L with
  | nil =>
    intro h
    simp [joinSpace] at h
  | cons w L ih =>
    intro h
    rcases L with _ | ⟨w2, ws⟩
    · exact Or.inl ⟨w, List.mem_cons_self _ _, h⟩
    · rw [joinSpace_cons_cons] at h
      rcases List.mem_append.1 h with h1 | h1
      · exact Or.inl ⟨w, List.mem_cons_self _ _, h1⟩
      · rcases List.mem_cons.1 h1 with h2 | h2
        · exact Or.inr h2
        · rcases ih h2 with ⟨p, hp, hcp⟩ | h3
          · exact Or.inl ⟨p, List.mem_cons_of_mem _ hp, hcp⟩
          · exact Or.inr h3

theorem exists_append_dropWhile (p : Char → Bool) : ∀ (s : List Char),
    ∃ u, s = u ++ s.dropWhile p := by
  intro s
  induction s with
  | nil => exact ⟨[], rfl⟩
  | cons c rest ih =>
    rw [List.dropWhile_cons]
    by_cases h : p c = true
    · rw [h]
      simp only [if_true]
      obtain ⟨u, hu⟩ := ih
      exact ⟨c :: u, by rw [List.cons_append, ← hu]⟩
    · rw [Bool.not_eq_true] at h
      rw [h]
      simp only [Bool.false_eq_true, if_false]
      exact ⟨[], rfl⟩

theorem stripWS_middle (s : List Char) : ∃ u v, s = u ++ stripWS s ++ v := by
  obtain ⟨u1, hu1⟩ := exists_append_dropWhile isWS s
  obtain ⟨u2, hu2⟩ := exists_append_dropWhile isWS (s.dropWhile isWS).reverse
  refine ⟨u1, u2.reverse, ?_⟩
  unfold stripWS
  have ht : s.dropWhile isWS
      = ((s.dropWhile isWS).reverse.dropWhile isWS).reverse ++ u2.reverse := by
    have h3 := congrArg List.reverse hu2
    rw [List.reverse_reverse, List.reverse_append] at h3
    exact h3
  conv_lhs => rw [hu1, ht]
  rw [List.append_assoc]

theorem mem_stripWS {c : Char} {s : List Char} (h : c ∈ stripWS s) : c ∈ s := by
  obtain ⟨u, v, huv⟩ := stripWS_middle s
  rw [huv]
  exact List.mem_append.2 (Or.inl (List.mem_append.2 (Or.inr h)))

theorem mem_collapseWS {c : Char} {s : List Char} (h : c ∈ collapseWS s) :
    c ∈ s ∨ c = ' ' := by
  unfold collapseWS at h
  rcases mem_joinSpace _ h with ⟨p, hp, hcp⟩ | h2
  · obtain ⟨u, v, huv⟩ := words_middle s p hp
    left
    rw [huv]
    exact List.mem_append.2 (Or.inl (List.mem_append.2 (Or.inr hcp)))
  · exact Or.inr h2

theorem noEllipsis_stripWS {s : List Char} (h : noEllipsis s = true) :
    noEllipsis (stripWS s) = true := by
  obtain ⟨u, v, huv⟩ := stripWS_middle s
  exact noEllipsis_of_middle u _ v (by rw [← huv]; exact h)

theorem noEllipsis_collapseWS {s : List Char} (h : noEllipsis s = true) :
    noEllipsis (collapseWS s) = true := by
  unfold collapseWS
  apply noEllipsis_joinSpace
  intro p hp
  obtain ⟨u, v, huv⟩ := words_middle s p hp
  exact noEllipsis_of_middle u p v (by rw [← huv]; exact h)

theorem noEllipsis_preSplit (x : List Char) : noEllipsis (preSplit x) = true := by
  unfold preSplit
  exact noEllipsis_stripWS (noEllipsis_collapseWS (noEllipsis_removeEllipsis _))

theorem noStar_preSplit (x : List Char) : ∀ c ∈ preSplit x, c ≠ '*' := by
  intro c hc hc2
  subst hc2
  unfold preSplit at hc
  have h1 : '*' ∈ collapseWS (removeEllipsis (removeStars (subStars x))) := mem_stripWS hc
  rcases mem_collapseWS h1 with h2 | h2
  · have h3 : '*' ∈ removeStars (subStars x) := mem_removeEllipsis h2
    unfold removeStars at h3
    have h4 := List.of_mem_filter h3
    simp at h4
  · exact absurd h2 (by decide)

theorem truncateSentences_eq (s : List Char) :
    truncateSentences s =
      if 3 < (splitSentences s).length then joinSpace ((splitSentences s).take 3)
      else s := rfl

theorem noStar_clean_response (x : List Char) : ∀ c ∈ clean_response x, c ≠ '*' := by
  intro c hc
  unfold clean_response at hc
  have hstep : c ∈ truncateSentences (preSplit x) ∨ c = '.' := by
    unfold addFinalDot at hc
    split_ifs at hc with h1 h2
    · exact Or.inl hc
    · exact Or.inl hc
    · rcases List.mem_append.1 hc with h | h
      · exact Or.inl h
      · right
        simpa using h
  rcases hstep with h | h
  · rw [truncateSentences_eq] at h
    split_ifs at h with h3
    · rcases mem_joinSpace _ h with ⟨p, hp, hcp⟩ | h4
      · have hp2 : p ∈ splitSentences (preSplit x) := List.take_subset 3 _ hp
        rw [splitSentences_eq] at hp2
        rcases List.mem_cons.1 hp2 with hq | hqs
        · subst hq
          obtain ⟨v, hv⟩ := (splitSentCore_middle (preSplit x) false false).1 rfl
          have hcx : c ∈ preSplit x := by
            rw [hv]
            exact List.mem_append.2 (Or.inl hcp)
          exact noStar_preSplit x c hcx
        · obtain ⟨u, v, huv⟩ := (splitSentCore_middle (preSplit x) false false).2.2 p hqs
          have hcx : c ∈ preSplit x := by
            rw [huv]
            exact List.mem_append.2 (Or.inl (List.mem_append.2 (Or.inr hcp)))
          exact noStar_preSplit x c hcx
      · subst h4
        decide
    · exact noStar_preSplit x c h
  · subst h
    decide

theorem getLast_ne_dot_of_not_endsPunct (s : List Char) (h : endsWithPunct s = false) :
    s.getLast? ≠ some '.' := by
  intro hc
  unfold endsWithPunct at h
  rw [hc] at h
  exact absurd h (by decide)

theorem noEllipsis_clean_response (x : List Char) :
    noEllipsis (clean_response x) = true := by
  have htr : noEllipsis (truncateSentences (preSplit x)) = true := by
    rw [truncateSentences_eq]
    split_ifs with h3
    · apply noEllipsis_joinSpace
      intro p hp
      have hp2 : p ∈ splitSentences (preSplit x) := List.take_subset 3 _ hp
      rw [splitSentences_eq] at hp2
      rcases List.mem_cons.1 hp2 with hq | hqs
      · subst hq
        obtain ⟨v, hv⟩ := (splitSentCore_middle (preSplit x) false false).1 rfl
        exact noEllipsis_of_middle [] _ v
          (by rw [List.nil_append, ← hv]; exact noEllipsis_preSplit x)
      · obtain ⟨u, v, huv⟩ := (splitSentCore_middle (preSplit x) false false).2.2 p hqs
        exact noEllipsis_of_middle u p v (by rw [← huv]; exact noEllipsis_preSplit x)
    · exact noEllipsis_preSplit x
  unfold clean_response addFinalDot
  split_ifs with h1 h2
  · exact htr
  · exact htr
  · refine noEllipsis_append_of_last ['.'] (by decide) _ htr ?_
    exact getLast_ne_dot_of_not_endsPunct _ (by rwa [Bool.not_eq_true] at h2)

/-- C3: for every string `x` the output of `clean_response` contains
no asterisk character and no three-dot ellipsis substring. -/
theorem clean_response_no_markup (x : List Char) :
    '*' ∉ clean_response x ∧
    containsSub ['.', '.', '.'] (clean_response x) = false := by
  constructor
  · intro hmem
    exact noStar_clean_response x '*' hmem rfl
  · have h := noEllipsis_clean_response x
    rw [noEllipsis_eq_not_containsSub] at h
    simpa using h

/-!
## Whitespace normal form

`wsScan b s` scans `s` left to right; the state `b` records whether a
space was just read (or the scan is at the very start); the scan
rejects (`none`) on any whitespace character other than a single
interior space, and otherwise returns the final state.  `okWS s` says
`s` is in the normal form produced by the whitespace collapse:
nonempty words separated by single spaces, or the empty string.
-/

def wsScan : Bool → List Char → Option Bool
  | b, [] => some b
  | b, c :: rest =>
    if isWS c then
      if c == ' ' && !b then wsScan true rest else none
    else wsScan false rest

def okWS (s : List Char) : Bool :=
  s.isEmpty || decide (wsScan true s = some false)

theorem okWS_of_scan {s : List Char} (h : wsScan true s = some false) :
    okWS s = true := by
  simp [okWS, h]

theorem scan_of_okWS {s : List Char} (h : okWS s = true) (hne : s ≠ []) :
    wsScan true s = some false := by
  rcases s with _ | ⟨c, rest⟩
  · exact absurd rfl hne
  · simpa [okWS] using h

theorem wsScan_cons_ws (b : Bool) (c : Char) (rest : List Char) (h : isWS c = true) :
    wsScan b (c :: rest) =
      if c == ' ' && !b then wsScan true rest else none := by
  simp [wsScan, h]

theorem wsScan_cons_nonWS (b : Bool) (c : Char) (rest : List Char) (h : isWS c = false) :
    wsScan b (c :: rest) = wsScan false rest := by
  simp [wsScan, h]

theorem wsScan_append : ∀ (a : List Char) (b : Bool) (z : List Char),
    wsScan b (a ++ z) = (wsScan b a).bind (fun b2 => wsScan b2 z) := by
  intro a
  induction a with
  | nil =>
    intro b z
    simp [wsScan]
  | cons c a ih =>
    intro b z
    rw [List.cons_append]
    by_cases h1 : isWS c = true
    · rw [wsScan_cons_ws _ _ _ h1, wsScan_cons_ws _ _ _ h1]
      by_cases h2 : (c == ' ' && !b) = true
      · rw [h2]
        simp only [if_true]
        exact ih true z
      · rw [Bool.not_eq_true] at h2
        rw [h2]
        simp
    · rw [Bool.not_eq_true] at h1
      rw [wsScan_cons_nonWS _ _ _ h1, wsScan_cons_nonWS _ _ _ h1]
      exact ih false z

theorem wsScan_word : ∀ (w : List Char) (b : Bool),
    (∀ c ∈ w, isWS c = false) → w ≠ [] → wsScan b w = some false := by
  intro w
  induction w with
  | nil =>
    intro b _ hne
    exact absurd rfl hne
  | cons c rest ih =>
    intro b hs _
    rw [wsScan_cons_nonWS _ _ _ (hs c (List.mem_cons_self _ _))]
    rcases rest with _ | ⟨d, r2⟩
    · rfl
    · exact ih false (fun e he => hs e (List.mem_cons_of_mem _ he)) (by simp)

theorem wsScan_last_state : ∀ (s : List Char) (b b2 : Bool) (c : Char),
    wsScan b s = some b2 → s.getLast? = some c → isWS c = false → b2 = false := by
  intro s
  induction s with
  | nil =>
    intro b b2 c h hl _
    simp at hl
  | cons d rest ih =>
    intro b b2 c h hl hws
    rcases rest with _ | ⟨e, r2⟩
    · simp at hl
      subst hl
      rw [wsScan_cons_nonWS _ _ _ hws] at h
      simpa [wsScan] using h.symm
    · rw [List.getLast?_cons_cons] at hl
      by_cases h1 : isWS d = true
      · rw [wsScan_cons_ws _ _ _ h1] at h
        by_cases h2 : (d == ' ' && !b) = true
        · rw [h2] at h
          simp only [if_true] at h
          exact ih true b2 c h hl hws
        · rw [Bool.not_eq_true] at h2
          rw [h2] at h
          simp at h
      · rw [Bool.not_eq_true] at h1
        rw [wsScan_cons_nonWS _ _ _ h1] at h
        exact ih false b2 c h hl hws

theorem wsScan_last_nonWS : ∀ (s : List Char) (b : Bool) (c : Char),
    wsScan b s = some false → s.getLast? = some c → isWS c = false := by
  intro s
  induction s with
  | nil =>
    intro b c h hl
    simp at hl
  | cons d rest ih =>
    intro b c h hl
    rcases rest with _ | ⟨e, r2⟩
    · simp at hl
      subst hl
      by_cases h1 : isWS d = true
      · rw [wsScan_cons_ws _ _ _ h1] at h
        by_cases h2 : (d == ' ' && !b) = true
        · rw [h2] at h
          simp only [if_true] at h
          simp [wsScan] at h
        · rw [Bool.not_eq_true] at h2
          rw [h2] at h
          simp at h
      · rwa [Bool.not_eq_true] at h1
    · rw [List.getLast?_cons_cons] at hl
      by_cases h1 : isWS d = true
      · rw [wsScan_cons_ws _ _ _ h1] at h
        by_cases h2 : (d == ' ' && !b) = true
        · rw [h2] at h
          simp only [if_true] at h
          exact ih true c h hl
        · rw [Bool.not_eq_true] at h2
          rw [h2] at h
          simp at h
      · rw [Bool.not_eq_true] at h1
        rw [wsScan_cons_nonWS _ _ _ h1] at h
        exact ih false c h hl

theorem okWS_head {s : List Char} (h : okWS s = true) :
    ∀ c r, s = c :: r → isWS c = false := by
  intro c r hs
  subst hs
  have hsc := scan_of_okWS h (List.cons_ne_nil _ _)
  by_cases h1 : isWS c = true
  · rw [wsScan_cons_ws _ _ _ h1] at hsc
    have h2 : (c == ' ' && !true) = false := by simp
    rw [h2] at hsc
    simp at hsc
  · rwa [Bool.not_eq_true] at h1

theorem joinSpace_cons_head (c : Char) (w : List Char) (ws : List (List Char)) :
    joinSpace ((c :: w) :: ws) = c :: joinSpace (w :: ws) := by
  cases ws <;> rfl

theorem joinSpace_nil_cons (W : List (List Char)) (hW : W ≠ []) :
    joinSpace ([] :: W) = ' ' :: joinSpace W := by
  rcases W with _ | ⟨w, ws⟩
  · exact absurd rfl hW
  · rfl

theorem words_cons_nonWS (d : Char) (r : List Char) (hd : isWS d = false) :
    words (d :: r) = (wordsCore (d :: r)).1 :: (wordsCore (d :: r)).2 := by
  rw [words_eq]
  have h1 : (wordsCore (d :: r)).1 = d :: (wordsCore r).1 := by
    rw [wordsCore_cons, hd]
    simp
  rw [h1]
  simp

theorem okWS_collapse_eq : ∀ (s : List Char), okWS s = true → collapseWS s = s := by
  have H : ∀ (n : Nat) (s : List Char), s.length = n → okWS s = true → collapseWS s = s := by
    intro n
    induction n using Nat.strong_induction_on with
    | _ n IH =>
      intro s hlen hok
      rcases s with _ | ⟨c, rest⟩
      · rfl
      · have hc : isWS c = false := okWS_head hok c rest rfl
        have hrest : wsScan false rest = some false := by
          have hs := scan_of_okWS hok (List.cons_ne_nil _ _)
          rwa [wsScan_cons_nonWS _ _ _ hc] at hs
        rw [collapseWS, words_eq, wordsCore_cons, hc]
        simp only [Bool.false_eq_true, if_false, List.isEmpty_cons]
        rw [joinSpace_cons_head]
        congr 1
        rcases rest with _ | ⟨d, rest2⟩
        · rfl
        · by_cases hd : isWS d = true
          · rw [wsScan_cons_ws _ _ _ hd] at hrest
            by_cases h2 : (d == ' ' && !false) = true
            · rw [h2] at hrest
              simp only [if_true] at hrest
              have hdsp : d = ' ' := by simpa using h2
              have hr2ne : rest2 ≠ [] := by
                intro h0
                rw [h0] at hrest
                simp [wsScan] at hrest
              have hok2 : okWS rest2 = true := okWS_of_scan hrest
              have hIH : collapseWS rest2 = rest2 :=
                IH rest2.length (by simp at hlen; omega) rest2 rfl hok2
              rw [wordsCore_cons, hd]
              simp only [if_true]
              have hr2h : isWS (rest2.headD ' ') = false := by
                rcases rest2 with _ | ⟨e, r3⟩
                · exact absurd rfl hr2ne
                · exact okWS_head hok2 e r3 rfl
              have hwne : words rest2 ≠ [] := by
                rcases rest2 with _ | ⟨e, r3⟩
                · exact absurd rfl hr2ne
                · rw [words_cons_nonWS e r3 (by simpa using hr2h)]
                  simp
              have hwords : (if (wordsCore rest2).1.isEmpty = true then (wordsCore rest2).2
                  else (wordsCore rest2).1 :: (wordsCore rest2).2) = words rest2 :=
                (words_eq rest2).symm
              rw [hwords, joinSpace_nil_cons _ hwne, hdsp]
              exact congrArg (List.cons ' ') hIH
            · rw [Bool.not_eq_true] at h2
              rw [h2] at hrest
              simp at hrest
          · rw [Bool.not_eq_true] at hd
            have hokr : okWS (d :: rest2) = true := by
              apply okWS_of_scan
              rw [wsScan_cons_nonWS _ _ _ hd]
              rwa [wsScan_cons_nonWS _ _ _ hd] at hrest
            have hIH : collapseWS (d :: rest2) = d :: rest2 :=
              IH (d :: rest2).length (by simp at hlen; simp; omega) _ rfl hokr
            rw [← words_cons_nonWS d rest2 hd]
            exact hIH
  intro s
  exact H s.length s rfl

theorem okWS_words_good : ∀ (s : List Char),
    (∀ c ∈ (wordsCore s).1, isWS c = false) ∧
    (∀ w ∈ (wordsCore s).2, w ≠ [] ∧ ∀ c ∈ w, isWS c = false) := by
  intro s
  induction s with
  | nil =>
    constructor
    · intro c hc
      simp [wordsCore] at hc
    · intro w hw
      simp [wordsCore] at hw
  | cons c rest ih =>
    rw [wordsCore_cons]
    by_cases hw : isWS c = true
    · rw [hw]
      simp only [if_true]
      constructor
      · intro e he
        simp at he
      · intro w hwm
        by_cases h1 : (wordsCore rest).1.isEmpty = true
        · rw [h1] at hwm
          simp only [if_true] at hwm
          exact ih.2 w hwm
        · rw [Bool.not_eq_true] at h1
          rw [h1] at hwm
          simp only [Bool.false_eq_true, if_false] at hwm
          rcases List.mem_cons.1 hwm with h2 | h2
          · subst h2
            refine ⟨?_, ih.1⟩
            intro h0
            rw [h0] at h1
            simp at h1
          · exact ih.2 w h2
    · rw [Bool.not_eq_true] at hw
      rw [hw]
      simp only [Bool.false_eq_true, if_false]
      constructor
      · intro e he
        rcases List.mem_cons.1 he with h2 | h2
        · subst h2
          exact hw
        · exact ih.1 e h2
      · exact ih.2

theorem joinSpace_ne_nil_of_cons (w : List Char) (ws : List (List Char)) (hw : w ≠ []) :
    joinSpace (w :: ws) ≠ [] := by
  rcases ws with _ | ⟨w2, ws2⟩
  · exact hw
  · rw [joinSpace_cons_cons]
    intro h0
    rcases w with _ | ⟨c, r⟩
    · exact absurd rfl hw
    · simp at h0

theorem okWS_joinSpace : ∀ (L : List (List Char)),
    (∀ w ∈ L, w ≠ [] ∧ ∀ c ∈ w, isWS c = false) → okWS (joinSpace L) = true := by
  intro L
  induction L with
  | nil =>
    intro _
    rfl
  | cons w ws ih =>
    intro h
    rcases ws with _ | ⟨w2, ws2⟩
    · have hw := h w (List.mem_cons_self _ _)
      exact okWS_of_scan (wsScan_word w true hw.2 hw.1)
    · rw [joinSpace_cons_cons]
      apply okWS_of_scan
      rw [wsScan_append]
      have hw := h w (List.mem_cons_self _ _)
      rw [wsScan_word w true hw.2 hw.1]
      show wsScan false (' ' :: joinSpace (w2 :: ws2)) = some false
      rw [wsScan_cons_ws _ _ _ (by decide)]
      rw [show ((' ' : Char) == ' ' && !false) = true from by decide]
      simp only [if_true]
      have hne : joinSpace (w2 :: ws2) ≠ [] :=
        joinSpace_ne_nil_of_cons w2 ws2 (h w2 (List.mem_cons_of_mem _ (List.mem_cons_self _ _))).1
      exact scan_of_okWS (ih (fun p hp => h p (List.mem_cons_of_mem _ hp))) hne

theorem okWS_collapseWS (s : List Char) : okWS (collapseWS s) = true := by
  unfold collapseWS
  apply okWS_joinSpace
  intro w hw
  rw [words_eq] at hw
  by_cases h1 : (wordsCore s).1.isEmpty = true
  · rw [h1] at hw
    simp only [if_true] at hw
    exact (okWS_words_good s).2 w hw
  · rw [Bool.not_eq_true] at h1
    rw [h1] at hw
    simp only [Bool.false_eq_true, if_false] at hw
    rcases List.mem_cons.1 hw with h2 | h2
    · subst h2
      refine ⟨?_, (okWS_words_good s).1⟩
      intro h0
      rw [h0] at h1
      simp at h1
    · exact (okWS_words_good s).2 w h2

theorem isPunct_not_WS (c : Char) (h : isPunct c = true) : isWS c = false := by
  unfold isPunct at h
  simp only [Bool.or_eq_true, decide_eq_true_eq] at h
  rcases h with (h | h) | h <;> subst h <;> decide

theorem lastNonWS_of_endsPunct (m : List Char) (h : endsWithPunct m = true) :
    ∀ c, m.getLast? = some c → isWS c = false := by
  intro c hc
  unfold endsWithPunct at h
  rw [hc] at h
  exact isPunct_not_WS c h

theorem okWS_stripWS (y : List Char) (h : okWS y = true) : stripWS y = y := by
  rcases y with _ | ⟨c, r⟩
  · rfl
  · unfold stripWS
    have hc : isWS c = false := okWS_head h c r rfl
    rw [List.dropWhile_cons_of_neg (by simp [hc])]
    have hscan := scan_of_okWS h (List.cons_ne_nil _ _)
    rcases hgl : (c :: r).getLast? with _ | d
    · simp at hgl
    · have hdws : isWS d = false := wsScan_last_nonWS _ _ _ hscan hgl
      rcases hrev : (c :: r).reverse with _ | ⟨e, rr⟩
      · have h0 := congrArg List.reverse hrev
        simp at h0
      · have he : e = d := by
          have h1 : (c :: r).reverse.head? = some e := by rw [hrev]; rfl
          rw [List.head?_reverse] at h1
          rw [hgl] at h1
          exact (Option.some_inj.1 h1).symm
        rw [List.dropWhile_cons_of_neg (by simp [he, hdws])]
        rw [← hrev, List.reverse_reverse]

theorem okWS_concat (s : List Char) (c : Char) (h : okWS s = true)
    (hc : isWS c = false) : okWS (s ++ [c]) = true := by
  rcases s with _ | ⟨d, r⟩
  · apply okWS_of_scan
    rw [List.nil_append, wsScan_cons_nonWS _ _ _ hc]
    rfl
  · apply okWS_of_scan
    rw [wsScan_append, scan_of_okWS h (List.cons_ne_nil _ _)]
    show wsScan false [c] = some false
    rw [wsScan_cons_nonWS _ _ _ hc]
    rfl

theorem okWS_sep_append (a b : List Char) (ha : okWS a = true) (hane : a ≠ [])
    (hb : okWS b = true) (hbne : b ≠ []) : okWS (a ++ (' ' :: b)) = true := by
  apply okWS_of_scan
  rw [wsScan_append, scan_of_okWS ha hane]
  show wsScan false (' ' :: b) = some false
  rw [wsScan_cons_ws _ _ _ (by decide),
    show ((' ' : Char) == ' ' && !false) = true from by decide]
  simp only [if_true]
  exact scan_of_okWS hb hbne

theorem okWS_middle (s m u v : List Char) (hs : okWS s = true)
    (huv : s = u ++ (m ++ v)) (hmne : m ≠ [])
    (hhead : ∀ c r, m = c :: r → isWS c = false)
    (hlast : ∀ c, m.getLast? = some c → isWS c = false) : okWS m = true := by
  have hsne : s ≠ [] := by
    rw [huv]
    rcases m with _ | ⟨c, r⟩
    · exact absurd rfl hmne
    · simp
  have hscan := scan_of_okWS hs hsne
  rw [huv, wsScan_append] at hscan
  obtain ⟨st, hst, hrest⟩ := Option.bind_eq_some.1 hscan
  rw [wsScan_append] at hrest
  obtain ⟨st2, hst2, _⟩ := Option.bind_eq_some.1 hrest
  rcases m with _ | ⟨c, r⟩
  · exact absurd rfl hmne
  · have hc : isWS c = false := hhead c r rfl
    apply okWS_of_scan
    rw [wsScan_cons_nonWS _ _ _ hc]
    rw [wsScan_cons_nonWS _ _ _ hc] at hst2
    rcases hgl : (c :: r).getLast? with _ | d
    · simp at hgl
    · have hdws : isWS d = false := hlast d hgl
      have hstf : st2 = false :=
        wsScan_last_state (c :: r) st st2 d
          (by rw [wsScan_cons_nonWS _ _ _ hc]; exact hst2) hgl hdws
      rw [hstf] at hst2
      exact hst2

theorem subStars_eq_self : ∀ (s : List Char), (∀ c ∈ s, c ≠ '*') → subStars s = s := by
  intro s
  induction s with
  | nil =>
    intro _
    rfl
  | cons c rest ih =>
    intro h
    show subStarsCore none (c :: rest) = c :: rest
    rw [show subStarsCore none (c :: rest) =
      if c = '*' then subStarsCore (some []) rest
      else c :: subStarsCore none rest from rfl]
    rw [if_neg (h c (List.mem_cons_self _ _))]
    exact congrArg (List.cons c) (ih fun d hd => h d (List.mem_cons_of_mem _ hd))

theorem removeStars_eq_self (s : List Char) (h : ∀ c ∈ s, c ≠ '*') :
    removeStars s = s := by
  unfold removeStars
  rw [List.filter_eq_self]
  intro a ha
  simpa using h a ha

theorem okWS_addFinalDot (t : List Char) (h : okWS t = true) :
    okWS (addFinalDot t) = true := by
  unfold addFinalDot
  split_ifs with h1 h2
  · exact h
  · exact h
  · exact okWS_concat t '.' h (by decide)

theorem numSentences_addFinalDot (t : List Char) (h : numSentences t ≤ 3) :
    numSentences (addFinalDot t) ≤ 3 := by
  unfold addFinalDot
  split_ifs with h1 h2
  · exact h
  · exact h
  · have he : numSentences (t ++ ['.']) = numSentences t := by
      unfold numSentences
      rw [splitSentences_eq, splitSentences_eq]
      simp only [List.length_cons]
      rw [splitSentCore_concat_len t false false '.' (by decide)]
    rw [he]
    exact h

theorem truncate_pieces (s : List Char) (h : 3 < numSentences s) :
    ∃ p2 p3,
      truncateSentences s =
        (splitSentCore false false s).1 ++ (' ' :: (p2 ++ (' ' :: p3))) ∧
      splitSentences ((splitSentCore false false s).1 ++ (' ' :: (p2 ++ (' ' :: p3)))) =
        [(splitSentCore false false s).1, p2, p3] ∧
      (splitSentCore false false s).1 ≠ [] ∧ p2 ≠ [] ∧ p3 ≠ [] ∧
      endsWithPunct (splitSentCore false false s).1 = true ∧
      endsWithPunct p2 = true ∧ endsWithPunct p3 = true ∧
      (∀ c r, p2 = c :: r → isWS c = false) ∧
      (∀ c r, p3 = c :: r → isWS c = false) ∧
      (∃ u v, s = u ++ (p2 ++ v)) ∧ (∃ u v, s = u ++ (p3 ++ v)) ∧
      (∃ v, s = (splitSentCore false false s).1 ++ v) := by
  have hq := splitSentCore_noSplit s false false
  have hh := splitSentCore_heads s false false
  have he := splitSentCore_ends s false false
  have hm := splitSentCore_middle s false false
  unfold numSentences at h
  rw [splitSentences_eq] at h
  rcases hqs : (splitSentCore false false s).2 with _ | ⟨p2, qs1⟩
  · rw [hqs] at h
    simp at h
  rcases hqs1 : qs1 with _ | ⟨p3, qs2⟩
  · rw [hqs, hqs1] at h
    simp at h
  rcases hqs2 : qs2 with _ | ⟨p4, qs3⟩
  · rw [hqs, hqs1, hqs2] at h
    simp at h
  subst hqs1
  subst hqs2
  refine ⟨p2, p3, ?_⟩
  have hqs_ne : (splitSentCore false false s).2 ≠ [] := by
    rw [hqs]
    simp
  have hq_ne : (splitSentCore false false s).1 ≠ [] := by
    intro h0
    exact absurd ((he.1 hqs_ne h0).2) (by decide)
  have hq_end : endsWithPunct (splitSentCore false false s).1 = true :=
    he.2.1 hqs_ne hq_ne
  have hq_ns : noSplit false (splitSentCore false false s).1 = true :=
    hq.2.1 rfl
  have hp2_mem : p2 ∈ (splitSentCore false false s).2 := by
    rw [hqs]
    exact List.mem_cons_self _ _
  have hp3_mem : p3 ∈ (splitSentCore false false s).2 := by
    rw [hqs]
    exact List.mem_cons_of_mem _ (List.mem_cons_self _ _)
  have hp2_dl : p2 ∈ (splitSentCore false false s).2.dropLast := by
    rw [hqs, List.dropLast_cons_of_ne_nil (by simp)]
    exact List.mem_cons_self _ _
  have hp3_dl : p3 ∈ (splitSentCore false false s).2.dropLast := by
    rw [hqs, List.dropLast_cons_of_ne_nil (by simp),
      List.dropLast_cons_of_ne_nil (by simp)]
    exact List.mem_cons_of_mem _ (List.mem_cons_self _ _)
  have hp2_props := he.2.2 p2 hp2_dl
  have hp3_props := he.2.2 p3 hp3_dl
  have hp2_ns : noSplit false p2 = true := hq.2.2 p2 hp2_mem
  have hp3_ns : noSplit false p3 = true := hq.2.2 p3 hp3_mem
  have hp2_head : ∀ c r, p2 = c :: r → isWS c = false := hh.2 p2 hp2_mem
  have hp3_head : ∀ c r, p3 = c :: r → isWS c = false := hh.2 p3 hp3_mem
  have htrunc : truncateSentences s =
      (splitSentCore false false s).1 ++ (' ' :: (p2 ++ (' ' :: p3))) := by
    unfold truncateSentences
    rw [splitSentences_eq, hqs]
    rw [if_pos (by simp)]
    rfl
  have hsplit3 := splitSentences_three (splitSentCore false false s).1 p2 p3
    hq_ns hq_end hp2_ns hp2_props.1 hp2_props.2 hp2_head hp3_ns hp3_props.1 hp3_head
  obtain ⟨u2, v2, huv2⟩ := hm.2.2 p2 hp2_mem
  obtain ⟨u3, v3, huv3⟩ := hm.2.2 p3 hp3_mem
  obtain ⟨v1, hv1⟩ := hm.1 rfl
  exact ⟨htrunc, hsplit3, hq_ne, hp2_props.1, hp3_props.1, hq_end,
    hp2_props.2, hp3_props.2, hp2_head, hp3_head,
    ⟨u2, v2, by rw [huv2, List.append_assoc]⟩,
    ⟨u3, v3, by rw [huv3, List.append_assoc]⟩, ⟨v1, hv1⟩⟩

theorem numSentences_truncate_le (s : List Char) :
    numSentences (truncateSentences s) ≤ 3 := by
  by_cases h : 3 < numSentences s
  · obtain ⟨p2, p3, ht, hsplit, _⟩ := truncate_pieces s h
    rw [ht]
    unfold numSentences
    rw [hsplit]
    rfl
  · have h2 : ¬ 3 < (splitSentences s).length := h
    rw [truncateSentences_eq, if_neg h2]
    omega

theorem okWS_truncate (s : List Char) (hs : okWS s = true) :
    okWS (truncateSentences s) = true := by
  by_cases h : 3 < numSentences s
  · obtain ⟨p2, p3, ht, _, hp1ne, hp2ne, hp3ne, hp1e, hp2e, hp3e,
      hp2h, hp3h, hmid2, hmid3, hpre⟩ := truncate_pieces s h
    rw [ht]
    obtain ⟨v1, hv1⟩ := hpre
    have hok1 : okWS (splitSentCore false false s).1 = true := by
      apply okWS_middle s _ [] v1 hs (by rw [List.nil_append]; exact hv1) hp1ne
      · intro c r hcr
        apply okWS_head hs c (r ++ v1)
        rw [hv1, hcr]
        rfl
      · exact lastNonWS_of_endsPunct _ hp1e
    obtain ⟨u2, v2, huv2⟩ := hmid2
    have hok2 : okWS p2 = true :=
      okWS_middle s p2 u2 v2 hs huv2 hp2ne hp2h (lastNonWS_of_endsPunct _ hp2e)
    obtain ⟨u3, v3, huv3⟩ := hmid3
    have hok3 : okWS p3 = true :=
      okWS_middle s p3 u3 v3 hs huv3 hp3ne hp3h (lastNonWS_of_endsPunct _ hp3e)
    apply okWS_sep_append _ _ hok1 hp1ne
    · exact okWS_sep_append _ _ hok2 hp2ne hok3 hp3ne
    · rcases p2 with _ | ⟨c, r⟩
      · exact absurd rfl hp2ne
      · simp
  · have h2 : ¬ 3 < (splitSentences s).length := h
    rw [truncateSentences_eq, if_neg h2]
    exact hs

/-- The shape every output of `clean_response` has: no asterisk, no
ellipsis, single-space-separated non-whitespace runs with no leading or
trailing whitespace, at most three sentences, and a terminal
punctuation mark unless empty.  Every string of this shape is a fixed
point of `clean_response`. -/
def normalized (y : List Char) : Prop :=
  (∀ c ∈ y, c ≠ '*') ∧ noEllipsis y = true ∧ okWS y = true ∧
  numSentences y ≤ 3 ∧ (y = [] ∨ endsWithPunct y = true)

theorem clean_response_normalized (x : List Char) : normalized (clean_response x) := by
  refine ⟨noStar_clean_response x, noEllipsis_clean_response x, ?_, ?_, ?_⟩
  · show okWS (addFinalDot (truncateSentences (preSplit x))) = true
    have hok0 : okWS (preSplit x) = true := by
      unfold preSplit
      rw [okWS_stripWS _ (okWS_collapseWS _)]
      exact okWS_collapseWS _
    exact okWS_addFinalDot _ (okWS_truncate _ hok0)
  · show numSentences (addFinalDot (truncateSentences (preSplit x))) ≤ 3
    exact numSentences_addFinalDot _ (numSentences_truncate_le _)
  · by_cases h0 : clean_response x = []
    · exact Or.inl h0
    · exact Or.inr (addFinalDot_ends (truncateSentences (preSplit x)) h0)

theorem clean_response_fixpoint (y : List Char) (h : normalized y) :
    clean_response y = y := by
  obtain ⟨hstar, hell, hok, hns, hend⟩ := h
  have hpre : preSplit y = y := by
    unfold preSplit
    rw [subStars_eq_self y hstar, removeStars_eq_self y hstar,
      removeEllipsis_eq_self hell, okWS_collapse_eq y hok, okWS_stripWS y hok]
  have htr : truncateSentences y = y := by
    have h3 : numSentences y ≤ 3 := hns
    have h2 : ¬ 3 < (splitSentences y).length := by
      unfold numSentences at h3
      omega
    rw [truncateSentences_eq, if_neg h2]
  have hadd : addFinalDot y = y := by
    rcases hend with h0 | h0
    · rw [h0]
      rfl
    · exact addFinalDot_of_endsPunct y h0
  show addFinalDot (truncateSentences (preSplit y)) = y
  rw [hpre, htr, hadd]

/-- C2: the normalizer is idempotent: for every string `x`,
`clean_response (clean_response x) = clean_response x`.  The output of
`clean_response` is already free of asterisks and ellipses, has
collapsed whitespace, at most three sentences, and terminal punctuation
when nonempty, and every rewrite stage of `clean_response` leaves a
string of that shape unchanged. -/
theorem clean_response_idempotent (x : List Char) :
    clean_response (clean_response x) = clean_response x :=
  clean_response_fixpoint _ (clean_response_normalized x)

end Conch
